import Mathlib

/-!
# Verification of the music-player media cache / streaming core

Shallow embedding of the core server code of the repository:

* `streamFile` — HTTP byte-range streaming (media server helper `streamFile`)
* `rateLimiter` — fixed-window per-IP rate limiting
* `isAllowedHost` / `dnsRebindingProtection` — Host-header validation
* `cleanupCache` — cache eviction sweep (age phase, then LRU-by-size phase)
* `isValidVideoId`, `isPathSafe`, `isPathAllowed`, `isValidAudioFile` — validators
* `tryDownload` loop — downloader candidate cascade with partial-file cleanup
* `proxyStream` / `fetchJson` — upstream relays and their redirect handling
* a labelled transition system for the concurrent `get-youtube-audio-url`
  IPC handler (per-id download lock and shared in-flight promise)

Machine integers of the source (JS numbers used as integers) are modelled as
`Int`/`Nat`; fallible parses return `Option`.
-/

namespace MusicPlayer

/-! ## Shared constants (src/electron/shared/constants.ts) -/

def RATE_LIMIT_WINDOW_MS : Int := 60000

def RATE_LIMIT_MAX_REQUESTS : Nat := 100

def MAX_CACHE_SIZE_MB : Nat := 500

def MAX_CACHE_AGE_DAYS : Nat := 7

/-- `MAX_CACHE_SIZE_MB * 1024 * 1024` (src/electron/main.ts, cleanupCache). -/
def maxCacheSizeBytes : Int := (MAX_CACHE_SIZE_MB : Int) * 1024 * 1024

/-- `MAX_CACHE_AGE_DAYS * 24 * 60 * 60 * 1000` (src/electron/main.ts, cleanupCache). -/
def maxCacheAgeMs : Int := (MAX_CACHE_AGE_DAYS : Int) * 24 * 60 * 60 * 1000

def AUDIO_EXTENSIONS : List String := [".mp3", ".wav", ".flac", ".ogg", ".m4a", ".aac", ".webm"]

def MIME_TYPES : List (String × String) :=
  [(".mp3", "audio/mpeg"), (".wav", "audio/wav"), (".flac", "audio/flac"),
   (".ogg", "audio/ogg"), (".m4a", "audio/mp4"), (".aac", "audio/aac"),
   (".webm", "audio/webm")]

/-! ## JS string / number helpers

The source manipulates header strings with `String.prototype.replace`,
`String.prototype.split` and `parseInt(s, 10)`.  These are embedded here
as executable functions on `List Char`. -/

/-- Character class of the regex `\d` (ASCII digits; `Char.isDigit`). -/
def digitVal (c : Char) : Nat := c.toNat - '0'.toNat

/-- Decimal value of a digit string (standard left fold). -/
def digitsToNat (l : List Char) : Nat := l.foldl (fun a c => 10 * a + digitVal c) 0

/-- Leading-whitespace characters skipped by JS `parseInt`. -/
def jsWhitespace (c : Char) : Bool := c = ' ' || c = '\t' || c = '\n' || c = '\r'

/-- Parse a maximal leading run of decimal digits; `none` when there is none
(the `NaN` outcome of `parseInt`). -/
def parseNatPrefix (s : List Char) : Option Nat :=
  let ds := s.takeWhile Char.isDigit
  if ds = [] then none else some (digitsToNat ds)

/-- JS `parseInt(s, 10)`: skip leading whitespace, optional sign, then a
maximal run of decimal digits; trailing garbage is ignored; `none` models
`NaN`. -/
def parseIntJS (s : List Char) : Option Int :=
  match s.dropWhile jsWhitespace with
  | [] => none
  | c :: rest =>
    if c = '-' then (parseNatPrefix rest).map (fun n : Nat => -(n : Int))
    else if c = '+' then (parseNatPrefix rest).map (fun n : Nat => (n : Int))
    else (parseNatPrefix (c :: rest)).map (fun n : Nat => (n : Int))

/-- JS `s.replace(pat, '')` for a string pattern: remove the first
occurrence of `pat` (string patterns replace only the first match). -/
def replaceFirst (pat : List Char) : List Char → List Char
  | [] => []
  | c :: rest =>
    if pat.isPrefixOf (c :: rest) then (c :: rest).drop pat.length
    else c :: replaceFirst pat rest

/-- Accumulator-based splitting on a separator character (JS `split(sep)`). -/
def splitOnCharAux (sep : Char) : List Char → List Char → List (List Char)
  | cur, [] => [cur.reverse]
  | cur, c :: rest =>
    if c = sep then cur.reverse :: splitOnCharAux sep [] rest
    else splitOnCharAux sep (c :: cur) rest

/-- JS `s.split(sep)` for a one-character separator. -/
def splitOnChar (sep : Char) (l : List Char) : List (List Char) :=
  splitOnCharAux sep [] l

/-- ASCII lowercasing, JS `toLowerCase` on the strings appearing here. -/
def lowerChars (l : List Char) : List Char := l.map Char.toLower

/-! ## Node `path` helpers (POSIX flavour)

`path.extname`, `path.normalize` and `path.isAbsolute` as used by
`constants.ts`.  The POSIX variants are modelled; the win32 differences
(backslash separators, drive letters) are orthogonal to the claims. -/

/-- Basename characters: everything after the last `/`. -/
def basenameChars (l : List Char) : List Char :=
  (l.reverse.takeWhile (fun c => c != '/')).reverse

/-- Node `path.extname` (POSIX): from the last `.` of the basename to the
end, empty when the basename has no dot or only a leading dot.
(The irrelevant corner `".."` differs from Node, which returns `""`.) -/
def extnameChars (l : List Char) : List Char :=
  let b := basenameChars l
  let afterDot := b.reverse.takeWhile (fun c => c != '.')
  if afterDot.length + 1 < b.length then '.' :: afterDot.reverse
  else if afterDot.length + 1 = b.length && b.headD ' ' != '.' then '.' :: afterDot.reverse
  else []

/-- Node `path.posix.isAbsolute`. -/
def posixIsAbsolute (s : String) : Bool := s.data.head? = some '/'

/-- Segment resolution of Node `normalizeString`: drop empty and `.`
segments, resolve `..` against the accumulated stack (kept above root only
for relative paths). -/
def normSegs (allowAbove : Bool) : List (List Char) → List (List Char) → List (List Char)
  | acc, [] => acc.reverse
  | acc, s :: rest =>
    if s = [] || s = ['.'] then normSegs allowAbove acc rest
    else if s = ['.', '.'] then
      match acc with
      | [] => if allowAbove then normSegs allowAbove [['.', '.']] rest else normSegs allowAbove [] rest
      | t :: acc' =>
        if t = ['.', '.'] then normSegs allowAbove (['.', '.'] :: t :: acc') rest
        else normSegs allowAbove acc' rest
    else normSegs allowAbove (s :: acc) rest

/-- Join path segments with `/`. -/
def joinSlash : List (List Char) → List Char
  | [] => []
  | [s] => s
  | s :: rest => s ++ '/' :: joinSlash rest

/-- Node `path.posix.normalize`. -/
def posixNormalize (p : String) : String :=
  if p = "" then "."
  else
    let cs := p.data
    let isAbs := cs.head? = some '/'
    let trailing := cs.getLast? = some '/'
    let core := joinSlash (normSegs (!isAbs) [] (splitOnChar '/' cs))
    if core = [] then
      if isAbs then "/" else if trailing then "./" else "."
    else
      let core2 := if trailing then core ++ ['/'] else core
      String.mk (if isAbs then '/' :: core2 else core2)

/-- `getAudioMimeType` (constants.ts): MIME type by lowercased extension,
default `audio/mpeg`. -/
def getAudioMimeType (filePath : String) : String :=
  let ext := String.mk (lowerChars (extnameChars filePath.data))
  match MIME_TYPES.lookup ext with
  | some t => t
  | none => "audio/mpeg"

/-! ## Validators (src/electron/shared/constants.ts) -/

/-- Character class of `VIDEO_ID_REGEX = /^[a-zA-Z0-9_-]{11}$/`. -/
def isVideoIdChar (c : Char) : Bool :=
  ('a' ≤ c && c ≤ 'z') || ('A' ≤ c && c ≤ 'Z') || ('0' ≤ c && c ≤ '9') || c = '_' || c = '-'

/-- `isValidVideoId` (constants.ts): falsy guard, then
`VIDEO_ID_REGEX.test(videoId)` — exactly 11 characters of the class. -/
def isValidVideoId (videoId : String) : Bool :=
  if videoId = "" then false
  else videoId.data.length = 11 && videoId.data.all isVideoIdChar

/-- `isPathSafe` (constants.ts): non-empty, no null byte, and the
normalized path contains no `..` and is absolute. -/
def isPathSafe (filePath : String) : Bool :=
  if filePath = "" then false
  else if filePath.data.contains '\x00' then false
  else
    let normalized := posixNormalize filePath
    if List.IsInfix ['.', '.'] normalized.data then false
    else if !(posixIsAbsolute normalized) then false
    else true

/-- `isPathAllowed` (constants.ts): safe, and the lowercased normalized
path starts with some lowercased normalized allowed directory.  The
allowed-directory list (`getAllowedDirectories()`, environment-dependent)
is passed as a parameter. -/
def isPathAllowed (allowedDirs : List String) (filePath : String) : Bool :=
  if !(isPathSafe filePath) then false
  else
    let normalized := posixNormalize filePath
    allowedDirs.any (fun dir =>
      let nd := posixNormalize dir
      (lowerChars nd.data).isPrefixOf (lowerChars normalized.data))

/-- `isValidAudioFile` (constants.ts): falsy guard, then lowercased
`path.extname` must be in `AUDIO_EXTENSIONS`. -/
def isValidAudioFile (filePath : String) : Bool :=
  if filePath = "" then false
  else AUDIO_EXTENSIONS.contains (String.mk (lowerChars (extnameChars filePath.data)))

/-! ## RangeStreamer (`streamFile`, media-server helper)

From the production-safe media server variant (src/unnamed/part_000,
lines 350–386).  The file is modelled as its byte list, the response as a
record of the status, the headers set by `writeHead`, and the bytes
written (`createReadStream(file, bounds).pipe(res)`). -/

structure HttpResponse where
  status : Nat
  contentRange : Option String := none
  acceptRanges : Option String := none
  contentLength : Option Nat := none
  contentType : Option String := none
  body : List Nat := []
deriving DecidableEq, Repr

/-- The 416 response: `writeHead(416, Content-Range: bytes */size)` then
`res.end()` with no body. -/
def rangeNotSatisfiable (size : Nat) : HttpResponse :=
  { status := 416, contentRange := some ("bytes */" ++ Nat.repr size) }

/-- `streamFile(file, req, res)` (src/unnamed/part_000):

* no `Range` header: 200 with the whole file;
* `Range` header: strip `bytes=` (first occurrence, as JS `replace`),
  split on `-`; an empty start string defaults to `0`, an empty or missing
  end string defaults to `size - 1`; `NaN`, negative start, `end >= size`
  or `start > end` give 416; otherwise 206 with the requested slice.

On the valid branch `start` and `end` are non-negative, so the JS decimal
rendering of the numbers in `Content-Range` is `Nat.repr` of `toNat`. -/
def streamFile (filePath : String) (file : List Nat) (range : Option String) : HttpResponse :=
  let size := file.length
  let type := getAudioMimeType filePath
  match range with
  | none =>
    { status := 200, contentLength := some size, contentType := some type,
      acceptRanges := some "bytes", body := file }
  | some r =>
    let parts := splitOnChar '-' (replaceFirst "bytes=".data r.data)
    let startStr := parts.headD []
    let endStr? := parts[1]?
    let startV : Option Int := if startStr ≠ [] then parseIntJS startStr else some 0
    let endV : Option Int :=
      match endStr? with
      | some e => if e ≠ [] then parseIntJS e else some ((size : Int) - 1)
      | none => some ((size : Int) - 1)
    match startV, endV with
    | some s, some e =>
      if s < 0 || e ≥ (size : Int) || s > e then rangeNotSatisfiable size
      else
        { status := 206,
          contentRange := some ("bytes " ++ Nat.repr s.toNat ++ "-" ++ Nat.repr e.toNat
                                  ++ "/" ++ Nat.repr size),
          acceptRanges := some "bytes",
          contentLength := some (e.toNat - s.toNat + 1),
          contentType := some type,
          body := (file.drop s.toNat).take (e.toNat - s.toNat + 1) }
    | _, _ => rangeNotSatisfiable size

/-- Requested start bound: an empty start string defaults to `0`. -/
def rangeStartValue (s : List Char) : Nat :=
  if s = [] then 0 else digitsToNat s

/-- Requested end bound: an empty end string defaults to `size - 1`. -/
def rangeEndValue (size : Nat) (e : List Char) : Nat :=
  if e = [] then size - 1 else digitsToNat e

/-! ## Rate limiter (src/unnamed/part_000, lines 28–63)

`rateLimitStore` is a JS `Map` keyed by client IP, modelled as an
association list preserving insertion order (as `Map` iteration does). -/

structure RateLimitEntry where
  count : Nat
  resetTime : Int
deriving DecidableEq, Repr

abbrev RateLimitStore := List (String × RateLimitEntry)

/-- `Map.get`. -/
def storeGet (m : RateLimitStore) (k : String) : Option RateLimitEntry :=
  match m with
  | [] => none
  | (k', v) :: rest => if k = k' then some v else storeGet rest k

/-- `Map.set`: replace in place if present, else append. -/
def storeSet (m : RateLimitStore) (k : String) (v : RateLimitEntry) : RateLimitStore :=
  match m with
  | [] => [(k, v)]
  | (k', v') :: rest => if k = k' then (k, v) :: rest else (k', v') :: storeSet rest k v

/-- Opportunistic pruning: when the store exceeds 10000 entries, delete
all entries whose window has ended (`now > resetTime`). -/
def pruneStore (now : Int) (m : RateLimitStore) : RateLimitStore :=
  if m.length > 10000 then m.filter (fun kv => decide (now ≤ kv.2.resetTime)) else m

inductive RateDecision
  | next
  | limited (retryAfter : Int)
deriving DecidableEq, Repr

/-- `Math.ceil((resetTime - now) / 1000)`.  The 429 branch is reached only
when `now ≤ resetTime` (otherwise the entry was just reset to count 1), so
the ceiling of the non-negative difference is the `Nat` computation
`(d + 999) / 1000`. -/
def retryAfterSeconds (resetTime now : Int) : Int :=
  (((resetTime - now).toNat + 999) / 1000 : Nat)

/-- One `rateLimiter` middleware call for client `ip` at time `now`:

* no live entry (absent, or `now > resetTime`): fresh entry
  `{count 1, resetTime now + RATE_LIMIT_WINDOW_MS}`;
* live entry: `count++` (an in-place mutation of the stored object);
* prune; then reject with 429 and `Retry-After` when
  `count > RATE_LIMIT_MAX_REQUESTS`, else pass the request on. -/
def rateLimiterStep (store : RateLimitStore) (ip : String) (now : Int) :
    RateLimitStore × RateDecision :=
  let entry :=
    match storeGet store ip with
    | none => { count := 1, resetTime := now + RATE_LIMIT_WINDOW_MS }
    | some e =>
      if now > e.resetTime then { count := 1, resetTime := now + RATE_LIMIT_WINDOW_MS }
      else { count := e.count + 1, resetTime := e.resetTime }
  let store1 := pruneStore now (storeSet store ip entry)
  if entry.count > RATE_LIMIT_MAX_REQUESTS then
    (store1, .limited (retryAfterSeconds entry.resetTime now))
  else (store1, .next)

/-- Process a sequence of requests from one client, collecting decisions. -/
def runRateLimiter (store : RateLimitStore) (ip : String) :
    List Int → RateLimitStore × List RateDecision
  | [] => (store, [])
  | t :: ts =>
    let (store', d) := rateLimiterStep store ip t
    let (store'', ds) := runRateLimiter store' ip ts
    (store'', d :: ds)

/-! ## Host validation (src/unnamed/part_000, lines 81–114)

`isAllowedHost` checks the port-stripped, lowercased hostname against a
literal list and the three private-network regexes
`/^192\.168\.\d{1,3}\.\d{1,3}$/`, `/^10\.\d{1,3}\.\d{1,3}\.\d{1,3}$/`,
`/^172\.(1[6-9]|2\d|3[01])\.\d{1,3}\.\d{1,3}$/`. -/

def ALLOWED_HOSTS : List String := ["localhost", "127.0.0.1", "::1", "[::1]"]

/-- `host.split(':')[0].toLowerCase()`: characters before the first `:`. -/
def hostnameOf (host : String) : String :=
  String.mk (lowerChars (host.data.takeWhile (fun c => c != ':')))

/-- `\d{1,3}`: consume the maximal run of leading digits and return the
rest when the run has length 1–3.  With the anchored patterns used here
this is equivalent to the backtracking regex semantics, because after a
maximal digit run the follow-up is either `\.` or end-of-string, neither
of which a digit can satisfy. -/
def octet13 (l : List Char) : Option (List Char) :=
  let ds := l.takeWhile Char.isDigit
  if 1 ≤ ds.length ∧ ds.length ≤ 3 then some (l.dropWhile Char.isDigit) else none

/-- `\d{1,3}$`. -/
def matchOct1 (l : List Char) : Bool := octet13 l = some []

/-- `\d{1,3}\.\d{1,3}$`. -/
def matchOct2 (l : List Char) : Bool :=
  match octet13 l with
  | some ('.' :: rest) => matchOct1 rest
  | _ => false

/-- `\d{1,3}\.\d{1,3}\.\d{1,3}$`. -/
def matchOct3 (l : List Char) : Bool :=
  match octet13 l with
  | some ('.' :: rest) => matchOct2 rest
  | _ => false

/-- `/^192\.168\.\d{1,3}\.\d{1,3}$/`. -/
def match192168 (l : List Char) : Bool :=
  "192.168.".data.isPrefixOf l && matchOct2 (l.drop 8)

/-- `/^10\.\d{1,3}\.\d{1,3}\.\d{1,3}$/`. -/
def match10 (l : List Char) : Bool :=
  "10.".data.isPrefixOf l && matchOct3 (l.drop 3)

/-- `/^172\.(1[6-9]|2\d|3[01])\.\d{1,3}\.\d{1,3}$/`. -/
def match172 (l : List Char) : Bool :=
  match l with
  | '1' :: '7' :: '2' :: '.' :: c1 :: c2 :: '.' :: rest =>
    ((c1 = '1' && '6' ≤ c2 && c2 ≤ '9') || (c1 = '2' && c2.isDigit)
      || (c1 = '3' && (c2 = '0' || c2 = '1')))
    && matchOct2 rest
  | _ => false

/-- `isAllowedHost` (src/unnamed/part_000): missing header is rejected;
otherwise the port-stripped lowercased hostname must be a literal from
`ALLOWED_HOSTS` or match one of the private-network patterns. -/
def isAllowedHost (host : Option String) : Bool :=
  match host with
  | none => false
  | some h =>
    let hostname := hostnameOf h
    if ALLOWED_HOSTS.contains hostname then true
    else if match192168 hostname.data then true
    else if match10 hostname.data then true
    else if match172 hostname.data then true
    else false

inductive HostDecision
  | next
  | forbidden (status : Nat)
deriving DecidableEq, Repr

/-- `dnsRebindingProtection` middleware: 403 unless the host is allowed. -/
def dnsRebindingProtection (host : Option String) : HostDecision :=
  if isAllowedHost host then .next else .forbidden 403

/-! ## Cache eviction sweep (`cleanupCache`, src/electron/main.ts 560–619)

The sweep stats every file in the cache directory (mtime and size), sums
the sizes, deletes files older than the age budget (subtracting their
sizes), and, if the running total still exceeds the size budget, deletes
the remaining files oldest-mtime-first until under budget.  Files are
modelled by their stat data; the function returns the files remaining
(deletions are assumed to succeed, as the claim does). -/

structure CacheFile where
  mtime : Int
  size : Nat
deriving DecidableEq, Repr

/-- Comparator of the LRU phase: modification time ascending. -/
def mtimeLE (a b : CacheFile) : Prop := a.mtime ≤ b.mtime

instance : DecidableRel mtimeLE := fun a b => Int.decLe a.mtime b.mtime

instance : IsTotal CacheFile mtimeLE := ⟨fun a b => Int.le_total a.mtime b.mtime⟩

instance : IsTrans CacheFile mtimeLE := ⟨fun _ _ _ => Int.le_trans⟩

/-- LRU deletion loop: `for file of remaining: if total <= max break;
delete; total -= size`. -/
def lruEvict : Int → List CacheFile → List CacheFile
  | _, [] => []
  | total, f :: rest =>
    if total ≤ maxCacheSizeBytes then f :: rest
    else lruEvict (total - (f.size : Int)) rest

/-- `cleanupCache` at time `now`: age phase then LRU-by-size phase.
`totalSize` after the age phase equals the size sum of the surviving
files (the code starts from the full sum and subtracts each deletion). -/
def cleanupCache (now : Int) (files : List CacheFile) : List CacheFile :=
  let cutoffTime := now - maxCacheAgeMs
  let remaining := files.filter (fun f => decide (cutoffTime ≤ f.mtime))
  let totalSize : Int := ((remaining.map (·.size)).sum : Nat)
  if totalSize > maxCacheSizeBytes then
    lruEvict totalSize (remaining.insertionSort mtimeLE)
  else remaining

/-! ## Downloader cascade (`tryDownload`, src/electron/main.ts 677–766)

Each candidate `(format, optional cookie browser)` invokes `yt-dlp`
wrapped in a timeout; the attempt succeeds when the process resolved and
the output file exists with positive size; every other outcome unlinks
the output before the next candidate.  The cache directory is modelled
as an association list from file path to size; the behaviour of one
external attempt is an environment value: whether `execPromise` resolved
and what file (if any) it left at the output path. -/

def ytCacheDir : String := "/tmp/family-player-yt-cache"

def ytCacheFileM4a (videoId : String) : String := ytCacheDir ++ "/" ++ videoId ++ ".m4a"

def ytCacheFileWebm (videoId : String) : String := ytCacheDir ++ "/" ++ videoId ++ ".webm"

abbrev FileDir := List (String × Nat)

def dirLookup (d : FileDir) (k : String) : Option Nat :=
  match d with
  | [] => none
  | (k', v) :: rest => if k = k' then some v else dirLookup rest k

def dirSet (d : FileDir) (k : String) (v : Nat) : FileDir :=
  match d with
  | [] => [(k, v)]
  | (k', v') :: rest => if k = k' then (k, v) :: rest else (k', v') :: dirSet rest k v

def dirErase (d : FileDir) (k : String) : FileDir :=
  match d with
  | [] => []
  | (k', v') :: rest => if k = k' then dirErase rest k else (k', v') :: dirErase rest k

/-- Outcome of one `yt-dlp` invocation: did `execPromise` resolve before
the timeout, and the state of the output path afterwards (`some n` = a
file of `n` bytes, `none` = no file). -/
structure Attempt where
  execOk : Bool
  fileSize : Option Nat
deriving DecidableEq, Repr

/-- An attempt fails when the process did not resolve or left no
positive-size file. -/
def attemptFails (a : Attempt) : Prop :=
  ¬(a.execOk = true ∧ ∃ n, a.fileSize = some n ∧ 0 < n)

instance (a : Attempt) : Decidable (attemptFails a) := by
  unfold attemptFails
  cases h : a.fileSize with
  | none => exact decidable_of_iff True (by simp [h])
  | some n => exact decidable_of_iff (¬(a.execOk = true ∧ 0 < n)) (by simp [h])

/-- `tryDownload(format, output, cookieBrowser?)`: run the attempt,
`stat` the output; success keeps the file, every failure path
(`size === 0`, missing file, rejected promise) unlinks the output. -/
def tryDownload (dir : FileDir) (output : String) (a : Attempt) : FileDir × Bool :=
  let dirAfter :=
    match a.fileSize with
    | some n => dirSet dir output n
    | none => dirErase dir output
  if a.execOk then
    match dirLookup dirAfter output with
    | some n => if 0 < n then (dirAfter, true) else (dirErase dirAfter output, false)
    | none => (dirErase dirAfter output, false)
  else (dirErase dirAfter output, false)

def downloadFormats : List String := ["140", "bestaudio[ext=m4a]", "bestaudio"]

def cookieBrowsers : List String := ["firefox", "chrome", "edge", "brave", "opera", "chromium"]

/-- `getOutputFile`: `bestaudio` produces webm, the other formats m4a. -/
def getOutputFile (videoId fmt : String) : String :=
  if fmt = "bestaudio" then ytCacheFileWebm videoId else ytCacheFileM4a videoId

/-- Candidate order of the handler: all formats without cookies, then all
(browser, format) pairs. -/
def downloadCandidateOutputs (videoId : String) : List String :=
  downloadFormats.map (getOutputFile videoId)
    ++ cookieBrowsers.flatMap (fun _ => downloadFormats.map (getOutputFile videoId))

/-- Run the candidate list left to right, stopping at the first success
and returning the protocol-ready output path (the caller wraps it into a
`local-audio://` URL). -/
def runAttempts (dir : FileDir) : List (String × Attempt) → FileDir × Option String
  | [] => (dir, none)
  | (out, a) :: rest =>
    let (d', ok) := tryDownload dir out a
    if ok then (d', some out) else runAttempts d' rest

/-! ## Upstream relays and redirects (src/server/index.ts)

`proxyStream` (lines 120–168) and `fetchJson` (lines 41–79) recurse on
every `301`/`302` response carrying a non-empty `location` header, with
no depth counter.  Recursion is made total with explicit fuel: `none`
means the function is still recursing after that many redirect hops.
The hardened variant (src/unnamed/part_005, lines 364–452) threads a
`redirectDepth` and answers `508 Too many redirects` beyond
`MAX_REDIRECT_DEPTH`. -/

structure UpstreamResponse where
  status : Nat
  location : Option String
  headers : List (String × String)
  body : List Nat
deriving DecidableEq, Repr

def forwardedHeaderNames : List String :=
  ["content-type", "content-length", "content-range", "accept-ranges"]

/-- Headers forwarded to the client, plus the CORS and Accept-Ranges
headers the relay always sets. -/
def forwardHeadersOf (hs : List (String × String)) : List (String × String) :=
  hs.filter (fun kv => forwardedHeaderNames.contains kv.1)
    ++ [("access-control-allow-origin", "*"), ("accept-ranges", "bytes")]

inductive ProxyOutcome
  | forwarded (status : Nat) (headers : List (String × String)) (body : List Nat)
deriving DecidableEq, Repr

/-- Does the response trigger the redirect branch (`301`/`302` with a
truthy `location` header)? -/
def isRedirectResponse (r : UpstreamResponse) : Bool :=
  (r.status = 301 || r.status = 302)
    && (match r.location with
        | some u => u ≠ ""
        | none => false)

def redirectTarget (r : UpstreamResponse) : String := (r.location).getD ""

/-- `proxyStream` of src/server/index.ts with explicit fuel: the code has
no redirect bound, so on a redirect the recursion simply continues;
`none` = no response produced within `fuel` hops. -/
def proxyStreamFuel (upstream : String → UpstreamResponse) :
    Nat → String → Option ProxyOutcome
  | 0, _ => none
  | fuel + 1, url =>
    let r := upstream url
    if isRedirectResponse r then proxyStreamFuel upstream fuel (redirectTarget r)
    else some (.forwarded r.status (forwardHeadersOf r.headers) r.body)

inductive FetchOutcome
  | success (body : List Nat)
  | failure (msg : String)
deriving DecidableEq, Repr

/-- `fetchJson` of src/server/index.ts with explicit fuel (the JSON parse
of the body is abstracted; only status/redirect handling matters here).
Non-redirect non-200 responses reject with `HTTP <status>`. -/
def fetchJsonFuel (upstream : String → UpstreamResponse) :
    Nat → String → Option FetchOutcome
  | 0, _ => none
  | fuel + 1, url =>
    let r := upstream url
    if isRedirectResponse r then fetchJsonFuel upstream fuel (redirectTarget r)
    else if r.status ≠ 200 then some (.failure ("HTTP " ++ Nat.repr r.status))
    else some (.success r.body)

def MAX_REDIRECT_DEPTH : Nat := 5

def MAX_PROXY_SIZE : Int := 100 * 1024 * 1024

inductive ProxyOutcomeB
  | tooManyRedirects (status : Nat)
  | tooLarge (status : Nat)
  | forwarded (status : Nat) (headers : List (String × String)) (body : List Nat)
deriving DecidableEq, Repr

/-- Content-length guard of the hardened relay:
`parseInt(headers['content-length'] || '0', 10) > MAX_PROXY_SIZE`
(`NaN` comparisons are false). -/
def contentLengthTooLarge (hs : List (String × String)) : Bool :=
  let cl :=
    match hs.lookup "content-length" with
    | some v => parseIntJS v.data
    | none => some 0
  match cl with
  | some n => decide (n > MAX_PROXY_SIZE)
  | none => false

/-- `proxyStream` of the hardened server variant (src/unnamed/part_005):
guard `redirectDepth > MAX_REDIRECT_DEPTH` first, recurse on redirects
with `redirectDepth + 1`, reject oversized declared lengths with 413,
otherwise forward.  Total by the decreasing remaining depth. -/
def proxyStreamBounded (upstream : String → UpstreamResponse)
    (redirectDepth : Nat) (url : String) : ProxyOutcomeB :=
  if h : redirectDepth > MAX_REDIRECT_DEPTH then .tooManyRedirects 508
  else
    let r := upstream url
    if isRedirectResponse r then proxyStreamBounded upstream (redirectDepth + 1) (redirectTarget r)
    else if contentLengthTooLarge r.headers then .tooLarge 413
    else .forwarded r.status (forwardHeadersOf r.headers) r.body
termination_by MAX_REDIRECT_DEPTH + 1 - redirectDepth
decreasing_by
  simp only [MAX_REDIRECT_DEPTH] at *
  omega

/-- The one-URL redirect cycle: every request answers `301` pointing back
at the same URL. -/
def cycleUpstream : String → UpstreamResponse :=
  fun _ => { status := 301, location := some "https://loop.example/a", headers := [], body := [] }

/-! ## Local-file stream endpoint (src/electron/server.ts 405–475)

`GET /api/stream/:trackId` decodes the base64 track id into a path; a
`youtube:`-prefixed path is served from the yt cache after video-id
validation, any other path must pass `isPathSafe`, `isValidAudioFile`
and `isPathAllowed` and exist before `streamFile` is invoked.  The
handler is modelled on the decoded path; `fileExists` stands for
`fs.access`. -/

inductive StreamDecision
  | serveLocal (p : String)
  | serveYoutube (p : String)
  | reject (status : Nat)
deriving DecidableEq, Repr

def apiStreamHandler (allowedDirs : List String) (fileExists : String → Bool)
    (filePath : String) : StreamDecision :=
  if "youtube:".data.isPrefixOf filePath.data then
    let videoId := String.mk (replaceFirst "youtube:".data filePath.data)
    if !(isValidVideoId videoId) then .reject 400
    else if fileExists (ytCacheFileM4a videoId) then .serveYoutube (ytCacheFileM4a videoId)
    else if fileExists (ytCacheFileWebm videoId) then .serveYoutube (ytCacheFileWebm videoId)
    else .reject 404
  else if !(isPathSafe filePath) then .reject 403
  else if !(isValidAudioFile filePath) then .reject 403
  else if !(isPathAllowed allowedDirs filePath) then .reject 403
  else if !(fileExists filePath) then .reject 404
  else .serveLocal filePath

/-! ## Concurrent `get-youtube-audio-url` handler (src/electron/main.ts)

The IPC handler validates the video id, acquires the per-id lock
(`acquireDownloadLock`), consults the shared in-flight map
(`activeDownloads`), and either joins the existing download promise or
creates one; the download promise checks the cache, invokes the
downloader when needed, and removes itself from the map in its `finally`
block before settling.

The handler's critical path — `await acquireDownloadLock` (which is
synchronous when the lock is free), the `activeDownloads` check, the
creation of the download promise (which runs synchronously up to its
first `fs.stat` await), `activeDownloads.set` and `releaseLock` —
contains no real suspension point, only immediately-resolved microtask
boundaries, so on the Node event loop it executes atomically: the lock is
taken and released within one segment and is free whenever any other
request's segment runs.  The wait loop and the 180 s stale-lock takeover
in `acquireDownloadLock` are therefore never exercised; they are modelled
by the `lockHeld = false` guard on the caller steps.

The download promise has genuine suspension points at the cache `stat`,
at the `yt-dlp` invocation and in its `finally` block; it is modelled as
a task stepping through `checkCache → download → finishing r → done r`.
As the claim presupposes (all callers receive a file path), the external
downloader is modelled as deterministically succeeding on the first
candidate, producing the `.m4a` cache file. -/

/-- `filePathToProtocolUrl` (percent-encoding of the fixed cache path is
omitted; the encoding is injective, so result equality is unaffected). -/
def filePathToProtocolUrl (filePath : String) : String :=
  "local-audio://audio/" ++ filePath

/-- URL every successful acquire resolves to. -/
def audioUrl (videoId : String) : String :=
  filePathToProtocolUrl (ytCacheFileM4a videoId)

inductive TaskPhase
  | unborn
  | checkCache
  | download
  | finishing (r : Option String)
  | done (r : Option String)
deriving DecidableEq, Repr

inductive CallerPhase
  | start
  | waiting (t : Nat)
  | finished (r : Option String)
deriving DecidableEq, Repr

/-- Shared process state: the per-id lock map restricted to the one id
(`lockHeld`), the `activeDownloads` entry for the id (`active`, holding
the task id of the in-flight promise), whether a positive-size cache file
exists (`cache`), the number of external downloader invocations
(`downloads`), the created download tasks and the per-caller phases. -/
structure SysState (N : Nat) where
  lockHeld : Bool
  active : Option Nat
  cache : Bool
  downloads : Nat
  taskCount : Nat
  tasks : Nat → TaskPhase
  callers : Fin N → CallerPhase

def initState (N : Nat) : SysState N :=
  { lockHeld := false, active := none, cache := false, downloads := 0,
    taskCount := 0, tasks := fun _ => .unborn, callers := fun _ => .start }

def setTask (f : Nat → TaskPhase) (t : Nat) (v : TaskPhase) : Nat → TaskPhase :=
  fun u => if u = t then v else f u

def setCaller {N : Nat} (f : Fin N → CallerPhase) (i : Fin N) (v : CallerPhase) :
    Fin N → CallerPhase :=
  fun j => if j = i then v else f j

/-- One atomic event-loop segment of the system. -/
inductive Step (videoId : String) {N : Nat} : SysState N → SysState N → Prop
  /-- Handler entry with an invalid id: return `null` immediately, before
  any lock, map, filesystem or network operation. -/
  | callerStartInvalid (s : SysState N) (i : Fin N) :
      s.callers i = .start → isValidVideoId videoId = false →
      Step videoId s { s with callers := setCaller s.callers i (.finished none) }
  /-- Handler entry, valid id, a download in flight: acquire and release
  the (free) lock, find the `activeDownloads` entry and return that
  promise. -/
  | callerStartJoin (s : SysState N) (i : Fin N) (t : Nat) :
      s.callers i = .start → isValidVideoId videoId = true →
      s.lockHeld = false → s.active = some t →
      Step videoId s { s with callers := setCaller s.callers i (.waiting t) }
  /-- Handler entry, valid id, no download in flight: acquire the lock,
  create the download promise, publish it in `activeDownloads`, release
  the lock and return the promise. -/
  | callerStartCreate (s : SysState N) (i : Fin N) :
      s.callers i = .start → isValidVideoId videoId = true →
      s.lockHeld = false → s.active = none →
      Step videoId s
        { s with active := some s.taskCount,
                 taskCount := s.taskCount + 1,
                 tasks := setTask s.tasks s.taskCount .checkCache,
                 callers := setCaller s.callers i (.waiting s.taskCount) }
  /-- Download promise: cache `stat` finds a positive-size file — touch
  its mtime and resolve with the protocol URL, no downloader run. -/
  | taskCheckHit (s : SysState N) (t : Nat) :
      s.tasks t = .checkCache → s.cache = true →
      Step videoId s
        { s with tasks := setTask s.tasks t (.finishing (some (audioUrl videoId))) }
  /-- Download promise: cache miss — proceed to the downloader. -/
  | taskCheckMiss (s : SysState N) (t : Nat) :
      s.tasks t = .checkCache → s.cache = false →
      Step videoId s { s with tasks := setTask s.tasks t .download }
  /-- Download promise: invoke the external downloader (modelled as
  succeeding on the first candidate), which writes the cache file. -/
  | taskDownload (s : SysState N) (t : Nat) :
      s.tasks t = .download →
      Step videoId s
        { s with downloads := s.downloads + 1, cache := true,
                 tasks := setTask s.tasks t (.finishing (some (audioUrl videoId))) }
  /-- Download promise `finally`: delete the `activeDownloads` entry,
  then the promise settles. -/
  | taskFinish (s : SysState N) (t : Nat) (r : Option String) :
      s.tasks t = .finishing r →
      Step videoId s
        { s with active := none, tasks := setTask s.tasks t (.done r) }
  /-- A caller awaiting a settled promise observes its value. -/
  | callerObserve (s : SysState N) (i : Fin N) (t : Nat) (r : Option String) :
      s.callers i = .waiting t → s.tasks t = .done r →
      Step videoId s { s with callers := setCaller s.callers i (.finished r) }

/-- States reachable from the initial state by any interleaving. -/
def Reachable (videoId : String) (N : Nat) (s : SysState N) : Prop :=
  Relation.ReflTransGen (Step videoId) (initState N) s

/-- Total size in bytes of a cache file list. -/
def sizeSum (l : List CacheFile) : Nat := (l.map (·.size)).sum

/-- Shape accepted by `\d{1,3}`: one to three decimal digits. -/
def octetShape (o : List Char) : Prop :=
  o ≠ [] ∧ o.length ≤ 3 ∧ ∀ c ∈ o, c.isDigit = true

instance (o : List Char) : Decidable (octetShape o) := by
  unfold octetShape
  infer_instance

/-- Modelled from the spec: a decimal IPv4 octet — one to three digits
whose value is at most 255. -/
def specOctetValue (l : List Char) : Option Nat :=
  if octetShape l ∧ digitsToNat l ≤ 255 then some (digitsToNat l) else none

/-- Modelled from the spec: the hostname lies in `192.168.0.0/16`,
`10.0.0.0/8` or `172.16.0.0/12` — a dotted quad of valid octets whose
leading octets select one of the three private ranges. -/
def claimHostInRanges (hn : String) : Bool :=
  match (splitOnChar '.' hn.data).map specOctetValue with
  | [some a, some b, some _, some _] =>
    (a = 192 && b = 168) || (a = 10) || (a = 172 && 16 ≤ b && b ≤ 31)
  | _ => false

/-- Modelled from the spec: a link-local IPv4 literal `169.254.0.0/16`. -/
def claimLinkLocal (hn : String) : Bool :=
  match (splitOnChar '.' hn.data).map specOctetValue with
  | [some a, some b, some _, some _] => a = 169 && b = 254
  | _ => false

/-- Modelled from the spec: "the hostname … is a
localhost/loopback/link-local literal or lies in the private IPv4 ranges
192.168.0.0/16, 10.0.0.0/8, or 172.16.0.0/12". -/
def claimAllowedHost (hn : String) : Bool :=
  hn = "localhost" || hn = "127.0.0.1" || hn = "::1"
    || claimLinkLocal hn || claimHostInRanges hn

/-! # Theorems -/

/-! ## C4 — eviction sweep budgets -/

lemma lruEvict_drop (total : Int) (l : List CacheFile) :
    ∃ k, lruEvict total l = l.drop k := by
  induction l generalizing total with
  | nil => exact ⟨0, rfl⟩
  | cons f rest ih =>
    by_cases h : total ≤ maxCacheSizeBytes
    · exact ⟨0, by simp [lruEvict, h]⟩
    · obtain ⟨k, hk⟩ := ih (total - (f.size : Int))
      exact ⟨k + 1, by simp [lruEvict, h, hk]⟩

lemma lruEvict_sum (l : List CacheFile) (total : Int)
    (h : total = (sizeSum l : Int)) :
    (sizeSum (lruEvict total l) : Int) ≤ maxCacheSizeBytes := by
  induction l generalizing total with
  | nil =>
    simp only [lruEvict, sizeSum, List.map_nil, List.sum_nil]
    decide
  | cons f rest ih =>
    by_cases hle : total ≤ maxCacheSizeBytes
    · simp [lruEvict, hle, ← h]
    · simp only [lruEvict, hle, if_false]
      apply ih
      have hs : sizeSum (f :: rest) = f.size + sizeSum rest := by
        simp [sizeSum]
      rw [hs] at h
      push_cast at h
      omega

/-- After every eviction sweep (deletions succeeding): every remaining
file is within the age budget, the remaining total size is within the
size budget, nothing new appears, and a file deleted though within the
age budget is no newer than any file kept (the LRU phase deletes oldest
first). -/
theorem C4_cleanup_cache_budgets (now : Int) (files : List CacheFile) :
    (∀ f ∈ cleanupCache now files, now - f.mtime ≤ maxCacheAgeMs)
    ∧ (sizeSum (cleanupCache now files) : Int) ≤ maxCacheSizeBytes
    ∧ (∀ f ∈ cleanupCache now files, f ∈ files)
    ∧ (∀ f ∈ files, f ∉ cleanupCache now files →
        maxCacheAgeMs < now - f.mtime ∨ ∀ g ∈ cleanupCache now files, f.mtime ≤ g.mtime) := by
  classical
  set rem := files.filter (fun f => decide (now - maxCacheAgeMs ≤ f.mtime)) with hrem
  have hmem_rem : ∀ f, f ∈ rem ↔ f ∈ files ∧ now - maxCacheAgeMs ≤ f.mtime := by
    intro f
    rw [hrem]
    simp [List.mem_filter]
  have hsplit : cleanupCache now files =
      if ((sizeSum rem : Int)) > maxCacheSizeBytes then
        lruEvict ((sizeSum rem : Int)) (rem.insertionSort mtimeLE)
      else rem := rfl
  by_cases hbig : ((sizeSum rem : Int)) > maxCacheSizeBytes
  · rw [hsplit, if_pos hbig]
    set sorted := rem.insertionSort mtimeLE with hsorted
    have hperm : List.Perm sorted rem := List.perm_insertionSort _ _
    have hsortedS : List.Sorted mtimeLE sorted := List.sorted_insertionSort _ _
    have hsum_eq : ((sizeSum rem : Int)) = (sizeSum sorted : Int) := by
      have h1 : (sorted.map (·.size)).sum = (rem.map (·.size)).sum :=
        (hperm.map (·.size)).sum_eq
      simp [sizeSum, h1]
    obtain ⟨k, hk⟩ := lruEvict_drop ((sizeSum rem : Int)) sorted
    rw [hk]
    have hsubsort : ∀ f ∈ sorted.drop k, f ∈ rem := by
      intro f hf
      exact hperm.mem_iff.mp (List.mem_of_mem_drop hf)
    refine ⟨?_, ?_, ?_, ?_⟩
    · intro f hf
      have := ((hmem_rem f).mp (hsubsort f hf)).2
      omega
    · rw [← hk]
      exact lruEvict_sum sorted _ hsum_eq
    · intro f hf
      exact ((hmem_rem f).mp (hsubsort f hf)).1
    · intro f hfiles hfnot
      by_cases hage : now - maxCacheAgeMs ≤ f.mtime
      · right
        have hfsorted : f ∈ sorted := hperm.mem_iff.mpr ((hmem_rem f).mpr ⟨hfiles, hage⟩)
        have hftake : f ∈ sorted.take k := by
          have hfsplit : f ∈ sorted.take k ++ sorted.drop k := by
            rw [List.take_append_drop]
            exact hfsorted
          rcases List.mem_append.mp hfsplit with h | h
          · exact h
          · exact absurd h hfnot
        intro g hg
        exact hsortedS.rel_of_mem_take_of_mem_drop hftake hg
      · left
        omega
  · rw [hsplit, if_neg hbig]
    refine ⟨?_, ?_, ?_, ?_⟩
    · intro f hf
      have := ((hmem_rem f).mp hf).2
      omega
    · exact not_lt.mp hbig
    · intro f hf
      exact ((hmem_rem f).mp hf).1
    · intro f hfiles hfnot
      left
      by_contra h
      push_neg at h
      exact hfnot ((hmem_rem f).mpr ⟨hfiles, by omega⟩)

/-! ## C2 / C3 — byte-range streaming -/

lemma digit_ne_dash {c : Char} (h : c.isDigit = true) : c ≠ '-' := by
  intro h1
  subst h1
  exact absurd h (by decide)

lemma digit_ne_plus {c : Char} (h : c.isDigit = true) : c ≠ '+' := by
  intro h1
  subst h1
  exact absurd h (by decide)

lemma digit_not_ws {c : Char} (h : c.isDigit = true) : jsWhitespace c = false := by
  by_cases h1 : c = ' '
  · subst h1; exact absurd h (by decide)
  by_cases h2 : c = '\t'
  · subst h2; exact absurd h (by decide)
  by_cases h3 : c = '\n'
  · subst h3; exact absurd h (by decide)
  by_cases h4 : c = '\r'
  · subst h4; exact absurd h (by decide)
  simp [jsWhitespace, h1, h2, h3, h4]

lemma parseNatPrefix_digits {l : List Char} (hne : l ≠ [])
    (h : ∀ c ∈ l, c.isDigit = true) :
    parseNatPrefix l = some (digitsToNat l) := by
  unfold parseNatPrefix
  rw [List.takeWhile_eq_self_iff.mpr h]
  simp [hne]

lemma parseIntJS_digits {l : List Char} (hne : l ≠ [])
    (h : ∀ c ∈ l, c.isDigit = true) :
    parseIntJS l = some ((digitsToNat l : Int)) := by
  cases l with
  | nil => exact absurd rfl hne
  | cons c rest =>
    have hc := h c (List.mem_cons_self c rest)
    have hdrop : List.dropWhile jsWhitespace (c :: rest) = c :: rest := by
      simp [List.dropWhile_cons, digit_not_ws hc]
    simp only [parseIntJS, hdrop]
    rw [if_neg (digit_ne_dash hc), if_neg (digit_ne_plus hc)]
    rw [parseNatPrefix_digits (by simp) h]
    rfl

lemma splitOnCharAux_no_sep (sep : Char) (cur l : List Char)
    (h : ∀ c ∈ l, c ≠ sep) :
    splitOnCharAux sep cur l = [cur.reverse ++ l] := by
  induction l generalizing cur with
  | nil => simp [splitOnCharAux]
  | cons c rest ih =>
    simp only [splitOnCharAux]
    rw [if_neg (h c (List.mem_cons_self _ _))]
    rw [ih (c :: cur) (fun d hd => h d (List.mem_cons_of_mem _ hd))]
    simp

lemma splitOnCharAux_sep_split (sep : Char) (cur s e : List Char)
    (hs : ∀ c ∈ s, c ≠ sep) :
    splitOnCharAux sep cur (s ++ sep :: e) = (cur.reverse ++ s) :: splitOnCharAux sep [] e := by
  induction s generalizing cur with
  | nil => simp [splitOnCharAux]
  | cons c rest ih =>
    simp only [List.cons_append, splitOnCharAux]
    rw [if_neg (hs c (List.mem_cons_self _ _))]
    simp [ih (c :: cur) (fun d hd => hs d (List.mem_cons_of_mem _ hd))]

lemma splitOnChar_pair (sep : Char) (s e : List Char)
    (hs : ∀ c ∈ s, c ≠ sep) (he : ∀ c ∈ e, c ≠ sep) :
    splitOnChar sep (s ++ sep :: e) = [s, e] := by
  unfold splitOnChar
  rw [splitOnCharAux_sep_split sep [] s e hs, splitOnCharAux_no_sep sep [] e he]
  simp

lemma replaceFirst_prefix (pat rest : List Char) (hne : pat ≠ []) :
    replaceFirst pat (pat ++ rest) = rest := by
  cases pat with
  | nil => exact absurd rfl hne
  | cons p ps =>
    simp only [List.cons_append, replaceFirst]
    rw [if_pos]
    · show ((p :: ps) ++ rest).drop (p :: ps).length = rest
      exact List.drop_left _ _
    · exact List.isPrefixOf_iff_prefix.mpr ⟨rest, by simp⟩

/-- The raw range-header character list `bytes=<s>-<e>`. -/
def rangeHeader (s e : List Char) : String :=
  String.mk ("bytes=".data ++ (s ++ '-' :: e))

/-- Parse reduction of `streamFile` on a `bytes=<s>-<e>` header whose two
bound strings contain no dash. -/
lemma streamFile_parse (filePath : String) (file : List Nat) (s e : List Char)
    (hs : ∀ c ∈ s, c ≠ '-') (he : ∀ c ∈ e, c ≠ '-') :
    streamFile filePath file (some (rangeHeader s e)) =
      (match (if s ≠ [] then parseIntJS s else some 0),
             (if e ≠ [] then parseIntJS e else some ((file.length : Int) - 1)) with
       | some sv, some ev =>
         if sv < 0 || ev ≥ (file.length : Int) || sv > ev then rangeNotSatisfiable file.length
         else
           { status := 206,
             contentRange := some ("bytes " ++ Nat.repr sv.toNat ++ "-" ++ Nat.repr ev.toNat
                                     ++ "/" ++ Nat.repr file.length),
             acceptRanges := some "bytes",
             contentLength := some (ev.toNat - sv.toNat + 1),
             contentType := some (getAudioMimeType filePath),
             body := (file.drop sv.toNat).take (ev.toNat - sv.toNat + 1) }
       | _, _ => rangeNotSatisfiable file.length) := by
  have hrep : replaceFirst "bytes=".data ("bytes=".data ++ (s ++ '-' :: e)) = s ++ '-' :: e :=
    replaceFirst_prefix _ _ (by decide)
  have hsplitp : splitOnChar '-' (s ++ '-' :: e) = [s, e] := splitOnChar_pair '-' s e hs he
  simp only [streamFile, rangeHeader]
  rw [hrep, hsplitp]
  rfl

/-- C2: a `bytes=<start>-<end>` request with decimal (possibly empty)
bounds, empty start defaulting to 0, empty end defaulting to `size - 1`,
satisfying `0 ≤ start ≤ end < size`, yields 206, the claimed
`Content-Range`, `Content-Length = end - start + 1` and exactly that byte
slice of the file. -/
theorem C2_valid_range_request_206
    (filePath : String) (file : List Nat) (s e : List Char)
    (hs : ∀ c ∈ s, c.isDigit = true) (he : ∀ c ∈ e, c.isDigit = true)
    (hse : rangeStartValue s ≤ rangeEndValue file.length e)
    (hend : rangeEndValue file.length e < file.length) :
    streamFile filePath file (some (rangeHeader s e)) =
      { status := 206,
        contentRange := some ("bytes " ++ Nat.repr (rangeStartValue s) ++ "-"
            ++ Nat.repr (rangeEndValue file.length e) ++ "/" ++ Nat.repr file.length),
        acceptRanges := some "bytes",
        contentLength := some (rangeEndValue file.length e - rangeStartValue s + 1),
        contentType := some (getAudioMimeType filePath),
        body := (file.drop (rangeStartValue s)).take
            (rangeEndValue file.length e - rangeStartValue s + 1) }
    ∧ ((file.drop (rangeStartValue s)).take
        (rangeEndValue file.length e - rangeStartValue s + 1)).length =
      rangeEndValue file.length e - rangeStartValue s + 1 := by
  have hsize1 : 1 ≤ file.length := by
    rcases Nat.eq_zero_or_pos file.length with h0 | h1
    · exfalso
      rw [h0] at hend
      exact Nat.not_lt_zero _ hend
    · exact h1
  have hparse := streamFile_parse filePath file s e
    (fun c hc => digit_ne_dash (hs c hc)) (fun c hc => digit_ne_dash (he c hc))
  have hstart : (if s ≠ [] then parseIntJS s else some 0) =
      some ((rangeStartValue s : Int)) := by
    by_cases h0 : s = []
    · subst h0
      simp [rangeStartValue]
    · rw [if_pos h0, parseIntJS_digits h0 hs]
      simp [rangeStartValue, h0]
  have hendv : (if e ≠ [] then parseIntJS e else some ((file.length : Int) - 1)) =
      some ((rangeEndValue file.length e : Int)) := by
    by_cases h0 : e = []
    · subst h0
      rw [if_neg (by simp)]
      have h1 : rangeEndValue file.length ([] : List Char) = file.length - 1 := by
        simp [rangeEndValue]
      rw [h1]
      congr 1
      omega
    · rw [if_pos h0, parseIntJS_digits h0 he]
      simp [rangeEndValue, h0]
  rw [hparse, hstart, hendv]
  have hcond : (((rangeStartValue s : Int) < 0 : Bool)
      || ((rangeEndValue file.length e : Int) ≥ (file.length : Int) : Bool)
      || ((rangeStartValue s : Int) > (rangeEndValue file.length e : Int) : Bool)) = false := by
    simp only [Bool.or_eq_false_iff, decide_eq_false_iff_not]
    refine ⟨⟨?_, ?_⟩, ?_⟩ <;> omega
  constructor
  · simp only [hcond, Bool.false_eq_true, if_false]
    congr 1
  · rw [List.length_take, List.length_drop]
    omega

/-- C3: a `bytes=<s>-<e>` request whose parsed bounds (with the empty
defaults) violate `0 ≤ start ≤ end < size` — including bounds that do not
parse as integers at all — yields 416 with `Content-Range: bytes */size`,
no other headers, and an empty body. -/
theorem C3_invalid_range_request_416
    (filePath : String) (file : List Nat) (s e : List Char)
    (hs : ∀ c ∈ s, c ≠ '-') (he : ∀ c ∈ e, c ≠ '-')
    (hviol : ¬ ∃ sv ev : Int,
        (if s ≠ [] then parseIntJS s else some 0) = some sv
        ∧ (if e ≠ [] then parseIntJS e else some ((file.length : Int) - 1)) = some ev
        ∧ 0 ≤ sv ∧ sv ≤ ev ∧ ev < (file.length : Int)) :
    streamFile filePath file (some (rangeHeader s e)) =
      { status := 416,
        contentRange := some ("bytes */" ++ Nat.repr file.length),
        acceptRanges := none,
        contentLength := none,
        contentType := none,
        body := [] } := by
  rw [streamFile_parse filePath file s e hs he]
  cases hS : (if s ≠ [] then parseIntJS s else some 0) with
  | none => rfl
  | some sv =>
    cases hE : (if e ≠ [] then parseIntJS e else some ((file.length : Int) - 1)) with
    | none => rfl
    | some ev =>
      have hbad : sv < 0 ∨ ev ≥ (file.length : Int) ∨ sv > ev := by
        by_contra hgood
        push_neg at hgood
        exact hviol ⟨sv, ev, hS, hE, by omega, by omega, by omega⟩
      have hcond : ((sv < 0 : Bool) || (ev ≥ (file.length : Int) : Bool)
          || (sv > ev : Bool)) = true := by
        simp only [Bool.or_eq_true, decide_eq_true_eq]
        tauto
      simp only [hcond, if_true]
      rfl

/-- Witness for C2 at a concrete file and request. -/
theorem C2_valid_range_request_206_witness :
    (∀ c ∈ ['1'], c.isDigit = true) ∧ (∀ c ∈ ['3'], c.isDigit = true)
    ∧ rangeStartValue ['1'] ≤ rangeEndValue 5 ['3']
    ∧ rangeEndValue 5 ['3'] < 5
    ∧ (streamFile "/a/b.m4a" [10, 20, 30, 40, 50] (some (rangeHeader ['1'] ['3'])) =
        { status := 206,
          contentRange := some ("bytes " ++ Nat.repr (rangeStartValue ['1']) ++ "-"
              ++ Nat.repr (rangeEndValue 5 ['3']) ++ "/" ++ Nat.repr 5),
          acceptRanges := some "bytes",
          contentLength := some (rangeEndValue 5 ['3'] - rangeStartValue ['1'] + 1),
          contentType := some (getAudioMimeType "/a/b.m4a"),
          body := (([10, 20, 30, 40, 50].drop (rangeStartValue ['1'])).take
              (rangeEndValue 5 ['3'] - rangeStartValue ['1'] + 1)) }) :=
  ⟨by decide, by decide, by decide, by decide,
    (C2_valid_range_request_206 "/a/b.m4a" [10, 20, 30, 40, 50] ['1'] ['3']
      (by decide) (by decide) (by decide) (by decide)).1⟩

/-- Witness for C3: `bytes=7-2` against a 5-byte file. -/
theorem C3_invalid_range_request_416_witness :
    streamFile "/a/b.m4a" [10, 20, 30, 40, 50] (some (rangeHeader ['7'] ['2'])) =
      { status := 416,
        contentRange := some ("bytes */" ++ Nat.repr 5),
        acceptRanges := none,
        contentLength := none,
        contentType := none,
        body := [] } :=
  C3_invalid_range_request_416 "/a/b.m4a" [10, 20, 30, 40, 50] ['7'] ['2']
    (by decide) (by decide)
    (by
      rintro ⟨sv, ev, hsv, hev, h0, h1, h2⟩
      have hv1 : (if (['7'] : List Char) ≠ [] then parseIntJS ['7'] else some 0) = some 7 := by
        decide
      have hv2 : (if (['2'] : List Char) ≠ [] then parseIntJS ['2']
          else some (((5 : Nat) : Int) - 1)) = some 2 := by
        decide
      rw [hv1] at hsv
      rw [show ((([10, 20, 30, 40, 50] : List Nat).length : Int)) = ((5 : Nat) : Int) from rfl,
        hv2] at hev
      cases hsv
      cases hev
      omega)

/-! ## C6 — rate limiter -/

lemma rateLimiterStep_empty (ip : String) (t : Int) :
    rateLimiterStep [] ip t =
      ([(ip, { count := 1, resetTime := t + RATE_LIMIT_WINDOW_MS })], RateDecision.next) := by
  simp [rateLimiterStep, storeGet, storeSet, pruneStore, RATE_LIMIT_MAX_REQUESTS]

lemma rateLimiterStep_single (ip : String) (c : Nat) (r t : Int) (ht : t ≤ r) :
    rateLimiterStep [(ip, { count := c, resetTime := r })] ip t =
      ([(ip, { count := c + 1, resetTime := r })],
        if c + 1 > RATE_LIMIT_MAX_REQUESTS then
          RateDecision.limited (retryAfterSeconds r t)
        else RateDecision.next) := by
  have hgt : (t > r) = False := eq_false (by omega)
  have h1 : storeGet [(ip, { count := c, resetTime := r })] ip =
      some { count := c, resetTime := r } := by
    simp [storeGet]
  have h2 : storeSet [(ip, { count := c, resetTime := r })] ip
      { count := c + 1, resetTime := r } = [(ip, { count := c + 1, resetTime := r })] := by
    simp [storeSet]
  have h3 : pruneStore t [(ip, { count := c + 1, resetTime := r })] =
      [(ip, { count := c + 1, resetTime := r })] := by
    unfold pruneStore
    rw [if_neg (by simp)]
  simp only [rateLimiterStep, h1, hgt, if_false, Bool.false_eq_true, h2, h3]
  by_cases hc : c + 1 > RATE_LIMIT_MAX_REQUESTS <;> simp [hc]

lemma runRateLimiter_within (ip : String) (c : Nat) (r : Int) (ts : List Int)
    (hts : ∀ t ∈ ts, t ≤ r) (hcount : c + ts.length ≤ RATE_LIMIT_MAX_REQUESTS) :
    runRateLimiter [(ip, { count := c, resetTime := r })] ip ts =
      ([(ip, { count := c + ts.length, resetTime := r })],
        List.replicate ts.length RateDecision.next) := by
  induction ts generalizing c with
  | nil => simp [runRateLimiter]
  | cons t ts ih =>
    have hstep := rateLimiterStep_single ip c r t (hts t (List.mem_cons_self _ _))
    have hnot : ¬ c + 1 > RATE_LIMIT_MAX_REQUESTS := by
      simp only [List.length_cons] at hcount
      omega
    rw [if_neg hnot] at hstep
    simp only [runRateLimiter, hstep]
    have hrec := ih (c + 1) (fun u hu => hts u (List.mem_cons_of_mem _ hu))
      (by simp only [List.length_cons] at hcount; omega)
    simp only [hrec]
    simp only [List.length_cons, List.replicate_succ]
    have hc2 : c + 1 + ts.length = c + (ts.length + 1) := by omega
    rw [hc2]

lemma runRateLimiter_append (store : RateLimitStore) (ip : String) (xs ys : List Int) :
    runRateLimiter store ip (xs ++ ys) =
      ((runRateLimiter (runRateLimiter store ip xs).1 ip ys).1,
        (runRateLimiter store ip xs).2 ++ (runRateLimiter (runRateLimiter store ip xs).1 ip ys).2) := by
  induction xs generalizing store with
  | nil => simp [runRateLimiter]
  | cons x xs ih =>
    simp only [List.cons_append, runRateLimiter, List.append_eq]
    rw [ih]

/-- Counterexample to C6 as stated: 100 requests at time 0 and the 101st
at exactly `windowResetAt = 60000` — still within the window by the
claim's own reset condition (reset only when `now > windowResetAt`) —
yield 429 with `Retry-After` 0, which is not positive. -/
theorem C6_rate_limit_counterexample :
    (runRateLimiter [] "10.0.0.5" (List.replicate 100 (0 : Int) ++ [60000])).2 =
      List.replicate 100 RateDecision.next ++ [RateDecision.limited 0] := by
  decide

/-- C6 (amended): for 101 requests of one client inside one window (no
reset fires), the first 100 pass and the 101st is rejected with 429 and
`Retry-After = ceil((windowResetAt - now) / 1000)` seconds — non-negative
always, and positive whenever the 101st request arrives strictly before
`windowResetAt` (at exactly `windowResetAt` it is 0). -/
theorem C6_rate_limit_101st (ip : String) (t0 tL : Int) (mid : List Int)
    (hmid : ∀ t ∈ mid, t ≤ t0 + RATE_LIMIT_WINDOW_MS)
    (hmidlen : mid.length = 99)
    (hL : tL ≤ t0 + RATE_LIMIT_WINDOW_MS) :
    (runRateLimiter [] ip (t0 :: (mid ++ [tL]))).2 =
      List.replicate 100 RateDecision.next
        ++ [RateDecision.limited (retryAfterSeconds (t0 + RATE_LIMIT_WINDOW_MS) tL)]
    ∧ 0 ≤ retryAfterSeconds (t0 + RATE_LIMIT_WINDOW_MS) tL
    ∧ (tL < t0 + RATE_LIMIT_WINDOW_MS →
        1 ≤ retryAfterSeconds (t0 + RATE_LIMIT_WINDOW_MS) tL) := by
  refine ⟨?_, ?_, ?_⟩
  · have h0 := rateLimiterStep_empty ip t0
    simp only [runRateLimiter, h0]
    rw [runRateLimiter_append]
    have h1 := runRateLimiter_within ip 1 (t0 + RATE_LIMIT_WINDOW_MS) mid hmid
      (by rw [hmidlen]; decide)
    rw [h1]
    have h2 : runRateLimiter
        [(ip, { count := 1 + mid.length, resetTime := t0 + RATE_LIMIT_WINDOW_MS })] ip [tL] =
        ([(ip, { count := 1 + mid.length + 1, resetTime := t0 + RATE_LIMIT_WINDOW_MS })],
          [RateDecision.limited (retryAfterSeconds (t0 + RATE_LIMIT_WINDOW_MS) tL)]) := by
      have hstep := rateLimiterStep_single ip (1 + mid.length) (t0 + RATE_LIMIT_WINDOW_MS) tL hL
      rw [if_pos (by rw [hmidlen]; decide)] at hstep
      simp [runRateLimiter, hstep]
    rw [h2]
    rw [hmidlen]
    rfl
  · unfold retryAfterSeconds
    positivity
  · intro hlt
    unfold retryAfterSeconds
    have h1 : 1 ≤ (t0 + RATE_LIMIT_WINDOW_MS - tL).toNat := by omega
    have h2 : 1 ≤ ((t0 + RATE_LIMIT_WINDOW_MS - tL).toNat + 999) / 1000 := by omega
    exact_mod_cast h2

/-- Witness for the amended C6 at a concrete request schedule. -/
theorem C6_rate_limit_101st_witness :
    (∀ t ∈ List.replicate 99 (0 : Int), t ≤ 0 + RATE_LIMIT_WINDOW_MS)
    ∧ (List.replicate 99 (0 : Int)).length = 99
    ∧ (30000 : Int) ≤ 0 + RATE_LIMIT_WINDOW_MS
    ∧ ((runRateLimiter [] "192.168.1.9" ((0 : Int) :: (List.replicate 99 (0 : Int) ++ [30000]))).2 =
        List.replicate 100 RateDecision.next
          ++ [RateDecision.limited (retryAfterSeconds (0 + RATE_LIMIT_WINDOW_MS) 30000)]
      ∧ 0 ≤ retryAfterSeconds (0 + RATE_LIMIT_WINDOW_MS) 30000
      ∧ ((30000 : Int) < 0 + RATE_LIMIT_WINDOW_MS →
          1 ≤ retryAfterSeconds (0 + RATE_LIMIT_WINDOW_MS) 30000)) :=
  ⟨by decide, by decide, by decide,
    C6_rate_limit_101st "192.168.1.9" 0 30000 (List.replicate 99 (0 : Int))
      (by decide) (by decide) (by decide)⟩

/-! ## C7 — host-header validation -/

lemma digits_split_take (ds r : List Char) (hds : ∀ c ∈ ds, c.isDigit = true)
    (hr : ∀ c, r.head? = some c → c.isDigit = false) :
    (ds ++ r).takeWhile Char.isDigit = ds ∧ (ds ++ r).dropWhile Char.isDigit = r := by
  induction ds with
  | nil =>
    simp only [List.nil_append]
    cases r with
    | nil => simp
    | cons c rest =>
      have hc := hr c rfl
      simp [List.takeWhile_cons, List.dropWhile_cons, hc]
  | cons d ds ih =>
    have hd := hds d (List.mem_cons_self _ _)
    have ihr := ih (fun c hc => hds c (List.mem_cons_of_mem _ hc))
    simp [List.takeWhile_cons, List.dropWhile_cons, hd, ihr.1, ihr.2]

lemma head?_dropWhile_false (p : Char → Bool) (l : List Char) :
    ∀ c, (l.dropWhile p).head? = some c → p c = false := by
  induction l with
  | nil =>
    intro c h
    simp at h
  | cons a l ih =>
    intro c h
    by_cases hp : p a
    · rw [List.dropWhile_cons, if_pos hp] at h
      exact ih c h
    · rw [List.dropWhile_cons, if_neg hp] at h
      simp only [List.head?_cons, Option.some.injEq] at h
      subst h
      exact Bool.eq_false_iff.mpr hp

lemma octet13_eq_some (ds r : List Char) (ho : octetShape ds)
    (hr : ∀ c, r.head? = some c → c.isDigit = false) :
    octet13 (ds ++ r) = some r := by
  obtain ⟨hne, hlen, hds⟩ := ho
  have hsplit := digits_split_take ds r hds hr
  unfold octet13
  simp only [hsplit.1, hsplit.2]
  rw [if_pos ⟨List.length_pos.mpr hne, hlen⟩]

lemma octet13_some (l r : List Char) (h : octet13 l = some r) :
    ∃ ds, l = ds ++ r ∧ octetShape ds ∧ (∀ c, r.head? = some c → c.isDigit = false) := by
  unfold octet13 at h
  by_cases hc : 1 ≤ (l.takeWhile Char.isDigit).length ∧ (l.takeWhile Char.isDigit).length ≤ 3
  · rw [if_pos hc] at h
    have hre : l.dropWhile Char.isDigit = r := Option.some.inj h
    refine ⟨l.takeWhile Char.isDigit, ?_, ⟨?_, hc.2, ?_⟩, ?_⟩
    · rw [← hre]
      exact (List.takeWhile_append_dropWhile _ _).symm
    · intro h0
      rw [h0] at hc
      simp at hc
    · intro c hc'
      exact List.mem_takeWhile_imp hc'
    · intro c hhead
      rw [← hre] at hhead
      exact head?_dropWhile_false _ _ c hhead
  · rw [if_neg hc] at h
    exact absurd h (by simp)

lemma matchOct1_iff (l : List Char) : matchOct1 l = true ↔ octetShape l := by
  unfold matchOct1
  rw [decide_eq_true_eq]
  constructor
  · intro h
    obtain ⟨ds, hds, hshape, _⟩ := octet13_some l [] h
    rw [List.append_nil] at hds
    exact hds ▸ hshape
  · intro h
    have h1 := octet13_eq_some l [] h (fun c hc => by simp at hc)
    simpa using h1

lemma matchOct2_iff (l : List Char) :
    matchOct2 l = true ↔ ∃ o1 o2, octetShape o1 ∧ octetShape o2 ∧ l = o1 ++ '.' :: o2 := by
  constructor
  · intro h
    unfold matchOct2 at h
    split at h
    · rename_i rest heq
      obtain ⟨o1, hl, hshape, _⟩ := octet13_some l ('.' :: rest) heq
      exact ⟨o1, rest, hshape, (matchOct1_iff rest).mp h, hl⟩
    · exact absurd h (by simp)
  · rintro ⟨o1, o2, h1, h2, rfl⟩
    unfold matchOct2
    have heq : octet13 (o1 ++ '.' :: o2) = some ('.' :: o2) :=
      octet13_eq_some o1 ('.' :: o2) h1
        (by
          intro c hc
          simp only [List.head?_cons, Option.some.injEq] at hc
          subst hc
          decide)
    rw [heq]
    exact (matchOct1_iff o2).mpr h2

lemma matchOct3_iff (l : List Char) :
    matchOct3 l = true ↔ ∃ o1 o2 o3, octetShape o1 ∧ octetShape o2 ∧ octetShape o3 ∧
      l = o1 ++ '.' :: (o2 ++ '.' :: o3) := by
  constructor
  · intro h
    unfold matchOct3 at h
    split at h
    · rename_i rest heq
      obtain ⟨o1, hl, hshape, _⟩ := octet13_some l ('.' :: rest) heq
      obtain ⟨o2, o3, h2, h3, hrest⟩ := (matchOct2_iff rest).mp h
      exact ⟨o1, o2, o3, hshape, h2, h3, by rw [hl, hrest]⟩
    · exact absurd h (by simp)
  · rintro ⟨o1, o2, o3, h1, h2, h3, rfl⟩
    unfold matchOct3
    have heq : octet13 (o1 ++ '.' :: (o2 ++ '.' :: o3)) = some ('.' :: (o2 ++ '.' :: o3)) :=
      octet13_eq_some o1 _ h1
        (by
          intro c hc
          simp only [List.head?_cons, Option.some.injEq] at hc
          subst hc
          decide)
    rw [heq]
    exact (matchOct2_iff _).mpr ⟨o2, o3, h2, h3, rfl⟩

lemma match192168_iff (l : List Char) :
    match192168 l = true ↔ ∃ o1 o2, octetShape o1 ∧ octetShape o2 ∧
      l = "192.168.".data ++ (o1 ++ '.' :: o2) := by
  unfold match192168
  rw [Bool.and_eq_true]
  constructor
  · rintro ⟨hpre, hoct⟩
    obtain ⟨t, ht⟩ := List.isPrefixOf_iff_prefix.mp hpre
    obtain ⟨o1, o2, h1, h2, hrest⟩ := (matchOct2_iff (l.drop 8)).mp hoct
    have hdrop : l.drop 8 = t := by
      rw [← ht]
      exact List.drop_left "192.168.".data t
    refine ⟨o1, o2, h1, h2, ?_⟩
    rw [← ht]
    congr 1
    rw [← hdrop, hrest]
  · rintro ⟨o1, o2, h1, h2, rfl⟩
    refine ⟨List.isPrefixOf_iff_prefix.mpr ⟨_, rfl⟩, ?_⟩
    rw [show ("192.168.".data ++ (o1 ++ '.' :: o2)).drop 8 = o1 ++ '.' :: o2 from
      List.drop_left "192.168.".data _]
    exact (matchOct2_iff _).mpr ⟨o1, o2, h1, h2, rfl⟩

lemma match10_iff (l : List Char) :
    match10 l = true ↔ ∃ o1 o2 o3, octetShape o1 ∧ octetShape o2 ∧ octetShape o3 ∧
      l = "10.".data ++ (o1 ++ '.' :: (o2 ++ '.' :: o3)) := by
  unfold match10
  rw [Bool.and_eq_true]
  constructor
  · rintro ⟨hpre, hoct⟩
    obtain ⟨t, ht⟩ := List.isPrefixOf_iff_prefix.mp hpre
    obtain ⟨o1, o2, o3, h1, h2, h3, hrest⟩ := (matchOct3_iff (l.drop 3)).mp hoct
    have hdrop : l.drop 3 = t := by
      rw [← ht]
      exact List.drop_left "10.".data t
    refine ⟨o1, o2, o3, h1, h2, h3, ?_⟩
    rw [← ht]
    congr 1
    rw [← hdrop, hrest]
  · rintro ⟨o1, o2, o3, h1, h2, h3, rfl⟩
    refine ⟨List.isPrefixOf_iff_prefix.mpr ⟨_, rfl⟩, ?_⟩
    rw [show ("10.".data ++ (o1 ++ '.' :: (o2 ++ '.' :: o3))).drop 3 =
        o1 ++ '.' :: (o2 ++ '.' :: o3) from List.drop_left "10.".data _]
    exact (matchOct3_iff _).mpr ⟨o1, o2, o3, h1, h2, h3, rfl⟩

lemma match172_iff (l : List Char) :
    match172 l = true ↔ ∃ d1 d2 o1 o2,
      ((d1 = '1' ∧ '6' ≤ d2 ∧ d2 ≤ '9') ∨ (d1 = '2' ∧ d2.isDigit = true)
        ∨ (d1 = '3' ∧ (d2 = '0' ∨ d2 = '1')))
      ∧ octetShape o1 ∧ octetShape o2
      ∧ l = '1' :: '7' :: '2' :: '.' :: d1 :: d2 :: '.' :: (o1 ++ '.' :: o2) := by
  constructor
  · intro h
    unfold match172 at h
    split at h
    · rename_i c1 c2 rest
      rw [Bool.and_eq_true] at h
      obtain ⟨hclass, hoct⟩ := h
      obtain ⟨o1, o2, h1, h2, hrest⟩ := (matchOct2_iff rest).mp hoct
      refine ⟨c1, c2, o1, o2, ?_, h1, h2, by rw [hrest]⟩
      simp only [Bool.or_eq_true, Bool.and_eq_true, decide_eq_true_eq] at hclass
      tauto
    · exact absurd h (by simp)
  · rintro ⟨d1, d2, o1, o2, hclass, h1, h2, rfl⟩
    show (((d1 = '1' && '6' ≤ d2 && d2 ≤ '9') || (d1 = '2' && d2.isDigit)
        || (d1 = '3' && (d2 = '0' || d2 = '1')))
      && matchOct2 (o1 ++ '.' :: o2)) = true
    rw [Bool.and_eq_true]
    refine ⟨?_, (matchOct2_iff _).mpr ⟨o1, o2, h1, h2, rfl⟩⟩
    simp only [Bool.or_eq_true, Bool.and_eq_true, decide_eq_true_eq]
    tauto

lemma isAllowedHost_some (host : String) :
    isAllowedHost (some host) =
      (ALLOWED_HOSTS.contains (hostnameOf host) || match192168 (hostnameOf host).data
        || match10 (hostnameOf host).data || match172 (hostnameOf host).data) := by
  unfold isAllowedHost
  by_cases h1 : ALLOWED_HOSTS.contains (hostnameOf host) = true <;>
    by_cases h2 : match192168 (hostnameOf host).data = true <;>
      by_cases h3 : match10 (hostnameOf host).data = true <;>
        by_cases h4 : match172 (hostnameOf host).data = true <;>
          simp [h1, h2, h3, h4]

/-- Counterexample to C7 as stated: the link-local literal `169.254.7.7`
is in the claim's allow-set but the middleware rejects it, while
`192.168.300.1` (not an IPv4 address, octet 300) is outside the claim's
allow-set but passes the middleware. -/
theorem C7_host_validation_counterexample :
    isAllowedHost (some "169.254.7.7") = false
    ∧ claimAllowedHost (hostnameOf "169.254.7.7") = true
    ∧ isAllowedHost (some "192.168.300.1") = true
    ∧ claimAllowedHost (hostnameOf "192.168.300.1") = false := by
  refine ⟨by decide, by decide, by decide, by decide⟩

/-- C7 (amended): the middleware passes a request exactly when the
port-stripped, lowercased hostname is one of the literals `localhost`,
`127.0.0.1`, `::1`, `[::1]`, or matches one of the digit-shape patterns
`192.168.d.d`, `10.d.d.d`, `172.(16-31).d.d` where each `d` is one to
three decimal digits with no 0–255 value check; link-local literals are
not accepted.  In particular `evil.example.com` is rejected with 403 and
`192.168.1.50:3000` passes. -/
theorem C7_host_validation_amended :
    (∀ host : String,
      dnsRebindingProtection (some host) = HostDecision.next ↔
        (hostnameOf host ∈ ALLOWED_HOSTS
          ∨ (∃ o1 o2, octetShape o1 ∧ octetShape o2 ∧
              (hostnameOf host).data = "192.168.".data ++ (o1 ++ '.' :: o2))
          ∨ (∃ o1 o2 o3, octetShape o1 ∧ octetShape o2 ∧ octetShape o3 ∧
              (hostnameOf host).data = "10.".data ++ (o1 ++ '.' :: (o2 ++ '.' :: o3)))
          ∨ (∃ d1 d2 o1 o2,
              ((d1 = '1' ∧ '6' ≤ d2 ∧ d2 ≤ '9') ∨ (d1 = '2' ∧ d2.isDigit = true)
                ∨ (d1 = '3' ∧ (d2 = '0' ∨ d2 = '1')))
              ∧ octetShape o1 ∧ octetShape o2
              ∧ (hostnameOf host).data =
                  '1' :: '7' :: '2' :: '.' :: d1 :: d2 :: '.' :: (o1 ++ '.' :: o2))))
    ∧ dnsRebindingProtection (some "evil.example.com") = HostDecision.forbidden 403
    ∧ dnsRebindingProtection (some "192.168.1.50:3000") = HostDecision.next := by
  refine ⟨?_, by decide, by decide⟩
  intro host
  have hnext : dnsRebindingProtection (some host) = HostDecision.next ↔
      isAllowedHost (some host) = true := by
    unfold dnsRebindingProtection
    by_cases h : isAllowedHost (some host) = true
    · simp [h]
    · simp [h]
  rw [hnext, isAllowedHost_some]
  simp only [Bool.or_eq_true]
  constructor
  · rintro (((hlit | h192) | h10) | h172)
    · left
      rw [List.contains_eq_any_beq] at hlit
      simp only [List.any_eq_true, beq_iff_eq] at hlit
      obtain ⟨x, hx, hxeq⟩ := hlit
      rw [← hxeq] at hx
      exact hx
    · exact Or.inr (Or.inl ((match192168_iff _).mp h192))
    · exact Or.inr (Or.inr (Or.inl ((match10_iff _).mp h10)))
    · exact Or.inr (Or.inr (Or.inr ((match172_iff _).mp h172)))
  · rintro (hlit | h192 | h10 | h172)
    · left
      left
      left
      rw [List.contains_eq_any_beq]
      simp only [List.any_eq_true, beq_iff_eq]
      exact ⟨hostnameOf host, hlit, rfl⟩
    · exact Or.inl (Or.inl (Or.inr ((match192168_iff _).mpr h192)))
    · exact Or.inl (Or.inr ((match10_iff _).mpr h10))
    · exact Or.inr ((match172_iff _).mpr h172)

/-! ## C8 — failed download attempts delete partial output -/

lemma dirLookup_set_self (d : FileDir) (k : String) (v : Nat) :
    dirLookup (dirSet d k v) k = some v := by
  induction d with
  | nil => simp [dirSet, dirLookup]
  | cons kv rest ih =>
    obtain ⟨k', v'⟩ := kv
    by_cases h : k = k'
    · simp [dirSet, dirLookup, h]
    · simp [dirSet, dirLookup, h, ih]

lemma dirLookup_set_ne (d : FileDir) (k k2 : String) (v : Nat) (h : k2 ≠ k) :
    dirLookup (dirSet d k v) k2 = dirLookup d k2 := by
  induction d with
  | nil => simp [dirSet, dirLookup, h]
  | cons kv rest ih =>
    obtain ⟨k', v'⟩ := kv
    by_cases hk : k = k'
    · subst hk
      simp [dirSet, dirLookup, h]
    · simp [dirSet, dirLookup, hk, ih]

lemma dirLookup_erase_self (d : FileDir) (k : String) :
    dirLookup (dirErase d k) k = none := by
  induction d with
  | nil => rfl
  | cons kv rest ih =>
    obtain ⟨k', v'⟩ := kv
    by_cases h : k = k'
    · subst h
      simp [dirErase, ih]
    · simp [dirErase, dirLookup, h, ih]

lemma dirLookup_erase_ne (d : FileDir) (k k2 : String) (h : k2 ≠ k) :
    dirLookup (dirErase d k) k2 = dirLookup d k2 := by
  induction d with
  | nil => rfl
  | cons kv rest ih =>
    obtain ⟨k', v'⟩ := kv
    by_cases hk : k = k'
    · subst hk
      simp [dirErase, dirLookup, h, ih]
    · simp [dirErase, dirLookup, hk, ih]

/-- A failed attempt reports failure and leaves no file at its output
path; other paths are untouched. -/
lemma tryDownload_fail (d : FileDir) (out : String) (a : Attempt)
    (h : attemptFails a) :
    (tryDownload d out a).2 = false
    ∧ dirLookup (tryDownload d out a).1 out = none
    ∧ ∀ o, o ≠ out → dirLookup (tryDownload d out a).1 o = dirLookup d o := by
  obtain ⟨ok, fs⟩ := a
  unfold attemptFails at h
  cases fs with
  | none =>
    cases ok with
    | false =>
      refine ⟨rfl, ?_, ?_⟩
      · simp [tryDownload, dirLookup_erase_self]
      · intro o ho
        simp [tryDownload, dirLookup_erase_ne _ _ _ ho]
    | true =>
      have hnone : dirLookup (dirErase d out) out = none := dirLookup_erase_self d out
      refine ⟨?_, ?_, ?_⟩
      · simp [tryDownload, hnone]
      · simp [tryDownload, hnone, dirLookup_erase_self]
      · intro o ho
        simp [tryDownload, hnone, dirLookup_erase_ne _ _ _ ho]
  | some n =>
    cases ok with
    | false =>
      refine ⟨rfl, ?_, ?_⟩
      · simp [tryDownload, dirLookup_erase_self]
      · intro o ho
        rw [show (tryDownload d out ⟨false, some n⟩).1 = dirErase (dirSet d out n) out from rfl]
        rw [dirLookup_erase_ne _ _ _ ho, dirLookup_set_ne _ _ _ _ ho]
    | true =>
      have hn : n = 0 := by
        by_contra hn0
        exact h ⟨rfl, n, rfl, Nat.pos_of_ne_zero hn0⟩
      subst hn
      have hsome : dirLookup (dirSet d out 0) out = some 0 := dirLookup_set_self d out 0
      refine ⟨?_, ?_, ?_⟩
      · simp [tryDownload, hsome]
      · simp [tryDownload, hsome, dirLookup_erase_self]
      · intro o ho
        simp [tryDownload, hsome, dirLookup_erase_ne _ _ _ ho,
          dirLookup_set_ne _ _ _ _ ho]

lemma runAttempts_all_fail (ps : List (String × Attempt)) (dir : FileDir)
    (hfail : ∀ pa ∈ ps, attemptFails pa.2) :
    (runAttempts dir ps).2 = none
    ∧ ∀ o, dirLookup (runAttempts dir ps).1 o =
        (if o ∈ ps.map Prod.fst then none else dirLookup dir o) := by
  induction ps generalizing dir with
  | nil => simp [runAttempts]
  | cons pa rest ih =>
    obtain ⟨out, a⟩ := pa
    have hf : attemptFails a := hfail (out, a) (List.mem_cons_self _ _)
    have htry := tryDownload_fail dir out a hf
    rcases hd : tryDownload dir out a with ⟨d', ok⟩
    rw [hd] at htry
    have hok : ok = false := htry.1
    subst hok
    have hih := ih d' (fun q hq => hfail q (List.mem_cons_of_mem _ hq))
    have hrun : runAttempts dir ((out, a) :: rest) = runAttempts d' rest := by
      simp [runAttempts, hd]
    rw [hrun]
    refine ⟨hih.1, ?_⟩
    intro o
    rw [hih.2 o]
    by_cases ho : o = out
    · subst ho
      by_cases hmem : o ∈ rest.map Prod.fst
      · simp [hmem]
      · simp only [hmem, if_false, List.map_cons, List.mem_cons, true_or, if_pos]
        exact htry.2.1
    · by_cases hmem : o ∈ rest.map Prod.fst
      · simp [hmem, ho]
      · simp only [hmem, if_false, List.map_cons, List.mem_cons, ho, false_or, if_neg]
        exact htry.2.2 o ho

/-- C8: when every candidate attempt of the downloader cascade fails, the
handler reports failure (`null`) and neither the `.m4a` nor the `.webm`
output path holds a file afterwards; moreover every failed attempt
deletes its output before the next candidate runs. -/
theorem C8_failed_download_cleanup (videoId : String) (dir : FileDir)
    (attempts : List Attempt)
    (hlen : (downloadCandidateOutputs videoId).length ≤ attempts.length)
    (hfail : ∀ a ∈ attempts, attemptFails a) :
    (∀ d out a, attemptFails a →
        (tryDownload d out a).2 = false ∧ dirLookup (tryDownload d out a).1 out = none)
    ∧ (runAttempts dir ((downloadCandidateOutputs videoId).zip attempts)).2 = none
    ∧ dirLookup (runAttempts dir ((downloadCandidateOutputs videoId).zip attempts)).1
        (ytCacheFileM4a videoId) = none
    ∧ dirLookup (runAttempts dir ((downloadCandidateOutputs videoId).zip attempts)).1
        (ytCacheFileWebm videoId) = none := by
  have hzip_fail : ∀ pa ∈ (downloadCandidateOutputs videoId).zip attempts,
      attemptFails pa.2 := by
    intro pa hpa
    obtain ⟨o, a⟩ := pa
    exact hfail a (List.of_mem_zip hpa).2
  have hrun := runAttempts_all_fail _ dir hzip_fail
  have hfst : ((downloadCandidateOutputs videoId).zip attempts).map Prod.fst =
      downloadCandidateOutputs videoId := List.map_fst_zip _ _ hlen
  have h140 : getOutputFile videoId "140" = ytCacheFileM4a videoId := by
    unfold getOutputFile
    rw [if_neg (by decide)]
  have hba : getOutputFile videoId "bestaudio" = ytCacheFileWebm videoId := by
    unfold getOutputFile
    rw [if_pos rfl]
  have hm4a : ytCacheFileM4a videoId ∈ downloadCandidateOutputs videoId := by
    unfold downloadCandidateOutputs downloadFormats
    simp only [List.map_cons, List.map_nil, List.mem_append, List.mem_cons]
    exact Or.inl (Or.inl h140.symm)
  have hwebm : ytCacheFileWebm videoId ∈ downloadCandidateOutputs videoId := by
    unfold downloadCandidateOutputs downloadFormats
    simp only [List.map_cons, List.map_nil, List.mem_append, List.mem_cons]
    exact Or.inl (Or.inr (Or.inr (Or.inl hba.symm)))
  refine ⟨fun d out a ha =>
      ⟨(tryDownload_fail d out a ha).1, (tryDownload_fail d out a ha).2.1⟩,
    hrun.1, ?_, ?_⟩
  · rw [hrun.2 (ytCacheFileM4a videoId), hfst, if_pos hm4a]
  · rw [hrun.2 (ytCacheFileWebm videoId), hfst, if_pos hwebm]

/-- Witness for C8: all 21 candidates fail with no file written. -/
theorem C8_failed_download_cleanup_witness :
    (downloadCandidateOutputs "dQw4w9WgXcQ").length ≤
      (List.replicate 21 ({ execOk := false, fileSize := none } : Attempt)).length
    ∧ (∀ a ∈ List.replicate 21 ({ execOk := false, fileSize := none } : Attempt),
        attemptFails a)
    ∧ (runAttempts [] ((downloadCandidateOutputs "dQw4w9WgXcQ").zip
        (List.replicate 21 ({ execOk := false, fileSize := none } : Attempt)))).2 = none
    ∧ dirLookup (runAttempts [] ((downloadCandidateOutputs "dQw4w9WgXcQ").zip
        (List.replicate 21 ({ execOk := false, fileSize := none } : Attempt)))).1
        (ytCacheFileM4a "dQw4w9WgXcQ") = none
    ∧ dirLookup (runAttempts [] ((downloadCandidateOutputs "dQw4w9WgXcQ").zip
        (List.replicate 21 ({ execOk := false, fileSize := none } : Attempt)))).1
        (ytCacheFileWebm "dQw4w9WgXcQ") = none := by
  have h := C8_failed_download_cleanup "dQw4w9WgXcQ" []
    (List.replicate 21 ({ execOk := false, fileSize := none } : Attempt))
    (by decide) (by decide)
  exact ⟨by decide, by decide, h.2.1, h.2.2.1, h.2.2.2⟩

/-! ## C9 — redirect handling of the relays -/

lemma proxyStreamFuel_cycle (n : Nat) :
    proxyStreamFuel cycleUpstream n "https://loop.example/a" = none := by
  induction n with
  | zero => rfl
  | succ n ih =>
    unfold proxyStreamFuel
    rw [if_pos (by decide)]
    exact ih

lemma fetchJsonFuel_cycle (n : Nat) :
    fetchJsonFuel cycleUpstream n "https://loop.example/a" = none := by
  induction n with
  | zero => rfl
  | succ n ih =>
    unfold fetchJsonFuel
    rw [if_pos (by decide)]
    exact ih

lemma proxyStreamBounded_redirecting_aux (upstream : String → UpstreamResponse)
    (hred : ∀ u, isRedirectResponse (upstream u) = true) :
    ∀ (k depth : Nat) (url : String), MAX_REDIRECT_DEPTH + 1 - depth ≤ k →
      proxyStreamBounded upstream depth url = ProxyOutcomeB.tooManyRedirects 508 := by
  intro k
  induction k with
  | zero =>
    intro depth url hk
    unfold proxyStreamBounded
    rw [dif_pos (by unfold MAX_REDIRECT_DEPTH at hk ⊢; omega)]
  | succ k ih =>
    intro depth url hk
    by_cases hd : depth > MAX_REDIRECT_DEPTH
    · unfold proxyStreamBounded
      rw [dif_pos hd]
    · unfold proxyStreamBounded
      rw [dif_neg hd]
      rw [if_pos (hred url)]
      exact ih (depth + 1) _ (by unfold MAX_REDIRECT_DEPTH at hk hd ⊢; omega)

/-- Counterexample to C9 as stated: on a one-URL redirect cycle, the
relay (`proxyStream`) and the JSON fetch (`fetchJson`) of
src/server/index.ts have produced no response after 10 redirect hops —
well past any claimed bound of 5 — instead of failing with
TooManyRedirects (their code has no such outcome at all). -/
theorem C9_redirects_counterexample :
    proxyStreamFuel cycleUpstream 10 "https://loop.example/a" = none
    ∧ fetchJsonFuel cycleUpstream 10 "https://loop.example/a" = none :=
  ⟨rfl, rfl⟩

/-- C9 (amended): in src/server/index.ts neither `proxyStream` nor
`fetchJson` bounds redirect depth — on a redirect cycle they recurse
forever, never producing a response.  Only the hardened server variant
bounds `proxyStream`, at depth `MAX_REDIRECT_DEPTH = 5`, answering
`508 Too many redirects` on any always-redirecting upstream; its
`fetchJson` remains unbounded. -/
theorem C9_redirects_amended :
    (∀ n, proxyStreamFuel cycleUpstream n "https://loop.example/a" = none)
    ∧ (∀ n, fetchJsonFuel cycleUpstream n "https://loop.example/a" = none)
    ∧ (∀ (upstream : String → UpstreamResponse),
        (∀ u, isRedirectResponse (upstream u) = true) →
        ∀ url, proxyStreamBounded upstream 0 url = ProxyOutcomeB.tooManyRedirects 508) :=
  ⟨proxyStreamFuel_cycle, fetchJsonFuel_cycle,
    fun upstream h url =>
      proxyStreamBounded_redirecting_aux upstream h (MAX_REDIRECT_DEPTH + 1) 0 url (by omega)⟩

/-- Witness for the amended C9 at concrete fuel and upstream. -/
theorem C9_redirects_amended_witness :
    proxyStreamFuel cycleUpstream 7 "https://loop.example/a" = none
    ∧ fetchJsonFuel cycleUpstream 7 "https://loop.example/a" = none
    ∧ proxyStreamBounded cycleUpstream 0 "https://loop.example/a" =
        ProxyOutcomeB.tooManyRedirects 508 :=
  ⟨C9_redirects_amended.1 7, C9_redirects_amended.2.1 7,
    C9_redirects_amended.2.2 cycleUpstream (fun _ => rfl) "https://loop.example/a"⟩

/-! ## C10 — local-file stream endpoint path gate -/

lemma isPathSafe_iff (filePath : String) :
    isPathSafe filePath = true ↔
      (filePath ≠ "" ∧ filePath.data.contains '\x00' = false
        ∧ ¬ List.IsInfix ['.', '.'] (posixNormalize filePath).data
        ∧ posixIsAbsolute (posixNormalize filePath) = true) := by
  simp only [isPathSafe]
  split_ifs with h1 h2 h3 h4 <;> simp_all

lemma isValidAudioFile_iff (filePath : String) :
    isValidAudioFile filePath = true ↔
      (filePath ≠ "" ∧ String.mk (lowerChars (extnameChars filePath.data)) ∈ AUDIO_EXTENSIONS) := by
  simp only [isValidAudioFile]
  split_ifs with h1
  · simp [h1]
  · rw [List.contains_eq_any_beq]
    simp [h1]

lemma isPathAllowed_iff (allowedDirs : List String) (filePath : String) :
    isPathAllowed allowedDirs filePath = true ↔
      (isPathSafe filePath = true ∧ ∃ dir ∈ allowedDirs,
        (lowerChars (posixNormalize dir).data).isPrefixOf
          (lowerChars (posixNormalize filePath).data) = true) := by
  simp only [isPathAllowed]
  split_ifs with h1
  · simp_all
  · simp only [List.any_eq_true]
    simp_all

/-- C10: on the stream endpoint, a decoded path that is not a
`youtube:` cache reference is served exactly when it is non-empty, free
of null bytes, normalizes to an absolute path without `..`, carries a
whitelisted audio extension, lies under an allowed directory, and
exists; in every other case the handler answers a 4xx rejection (403 or
404) without opening the file. -/
theorem C10_stream_endpoint_path_gate (allowedDirs : List String)
    (fileExists : String → Bool) (filePath : String)
    (hyt : "youtube:".data.isPrefixOf filePath.data = false) :
    (apiStreamHandler allowedDirs fileExists filePath = StreamDecision.serveLocal filePath ↔
      (filePath ≠ ""
        ∧ filePath.data.contains '\x00' = false
        ∧ ¬ List.IsInfix ['.', '.'] (posixNormalize filePath).data
        ∧ posixIsAbsolute (posixNormalize filePath) = true
        ∧ String.mk (lowerChars (extnameChars filePath.data)) ∈ AUDIO_EXTENSIONS
        ∧ (∃ dir ∈ allowedDirs,
            (lowerChars (posixNormalize dir).data).isPrefixOf
              (lowerChars (posixNormalize filePath).data) = true)
        ∧ fileExists filePath = true))
    ∧ (apiStreamHandler allowedDirs fileExists filePath = StreamDecision.serveLocal filePath
        ∨ ∃ st, apiStreamHandler allowedDirs fileExists filePath = StreamDecision.reject st
            ∧ 400 ≤ st ∧ st < 500) := by
  have hhandler : apiStreamHandler allowedDirs fileExists filePath =
      (if !(isPathSafe filePath) then StreamDecision.reject 403
       else if !(isValidAudioFile filePath) then StreamDecision.reject 403
       else if !(isPathAllowed allowedDirs filePath) then StreamDecision.reject 403
       else if !(fileExists filePath) then StreamDecision.reject 404
       else StreamDecision.serveLocal filePath) := by
    unfold apiStreamHandler
    rw [if_neg (by simp [hyt])]
  have hcombo : (filePath ≠ ""
        ∧ filePath.data.contains '\x00' = false
        ∧ ¬ List.IsInfix ['.', '.'] (posixNormalize filePath).data
        ∧ posixIsAbsolute (posixNormalize filePath) = true
        ∧ String.mk (lowerChars (extnameChars filePath.data)) ∈ AUDIO_EXTENSIONS
        ∧ (∃ dir ∈ allowedDirs,
            (lowerChars (posixNormalize dir).data).isPrefixOf
              (lowerChars (posixNormalize filePath).data) = true)
        ∧ fileExists filePath = true) ↔
      (isPathSafe filePath = true ∧ isValidAudioFile filePath = true
        ∧ isPathAllowed allowedDirs filePath = true ∧ fileExists filePath = true) := by
    constructor
    · rintro ⟨h1, h2, h3, h4, h5, h6, h7⟩
      have hSafe : isPathSafe filePath = true := (isPathSafe_iff filePath).mpr ⟨h1, h2, h3, h4⟩
      exact ⟨hSafe, (isValidAudioFile_iff filePath).mpr ⟨h1, h5⟩,
        (isPathAllowed_iff allowedDirs filePath).mpr ⟨hSafe, h6⟩, h7⟩
    · rintro ⟨h1, h2, h3, h4⟩
      obtain ⟨a, b, c, d⟩ := (isPathSafe_iff filePath).mp h1
      exact ⟨a, b, c, d, ((isValidAudioFile_iff filePath).mp h2).2,
        ((isPathAllowed_iff allowedDirs filePath).mp h3).2, h4⟩
  constructor
  · rw [hhandler, hcombo]
    by_cases hS : isPathSafe filePath = true <;>
      by_cases hV : isValidAudioFile filePath = true <;>
        by_cases hA : isPathAllowed allowedDirs filePath = true <;>
          by_cases hE : fileExists filePath = true <;>
            simp [hS, hV, hA, hE]
  · rw [hhandler]
    by_cases hS : isPathSafe filePath = true <;>
      by_cases hV : isValidAudioFile filePath = true <;>
        by_cases hA : isPathAllowed allowedDirs filePath = true <;>
          by_cases hE : fileExists filePath = true <;>
            simp [hS, hV, hA, hE]

/-- Witness for C10 at a concrete allowed path. -/
theorem C10_stream_endpoint_path_gate_witness :
    ("youtube:".data.isPrefixOf ("/home/u/Music/song.mp3" : String).data = false)
    ∧ (apiStreamHandler ["/home/u/Music"] (fun _ => true) "/home/u/Music/song.mp3" =
        StreamDecision.serveLocal "/home/u/Music/song.mp3" ↔
      (("/home/u/Music/song.mp3" : String) ≠ ""
        ∧ ("/home/u/Music/song.mp3" : String).data.contains '\x00' = false
        ∧ ¬ List.IsInfix ['.', '.'] (posixNormalize "/home/u/Music/song.mp3").data
        ∧ posixIsAbsolute (posixNormalize "/home/u/Music/song.mp3") = true
        ∧ String.mk (lowerChars (extnameChars ("/home/u/Music/song.mp3" : String).data))
            ∈ AUDIO_EXTENSIONS
        ∧ (∃ dir ∈ ["/home/u/Music"],
            (lowerChars (posixNormalize dir).data).isPrefixOf
              (lowerChars (posixNormalize "/home/u/Music/song.mp3").data) = true)
        ∧ (fun (_ : String) => true) "/home/u/Music/song.mp3" = true)) :=
  ⟨by decide,
    (C10_stream_endpoint_path_gate ["/home/u/Music"] (fun _ => true)
      "/home/u/Music/song.mp3" (by decide)).1⟩

/-! ## C1 / C5 — concurrent acquire: invariant -/

lemma setTask_self (f : Nat → TaskPhase) (t : Nat) (v : TaskPhase) :
    setTask f t v t = v := by
  simp [setTask]

lemma setTask_ne (f : Nat → TaskPhase) (t u : Nat) (v : TaskPhase) (h : u ≠ t) :
    setTask f t v u = f u := by
  simp [setTask, h]

lemma setCaller_self {N : Nat} (f : Fin N → CallerPhase) (i : Fin N) (v : CallerPhase) :
    setCaller f i v i = v := by
  simp [setCaller]

lemma setCaller_ne {N : Nat} (f : Fin N → CallerPhase) (i j : Fin N) (v : CallerPhase)
    (h : j ≠ i) : setCaller f i v j = f j := by
  simp [setCaller, h]

/-- Inductive invariant of the acquire system. -/
structure Inv (videoId : String) {N : Nat} (s : SysState N) : Prop where
  lock_free : s.lockHeld = false
  unborn_ge : ∀ t, s.taskCount ≤ t → s.tasks t = TaskPhase.unborn
  active_lt : ∀ t, s.active = some t → t < s.taskCount
  active_alive : ∀ t, s.active = some t →
    (s.tasks t = TaskPhase.checkCache ∨ s.tasks t = TaskPhase.download
      ∨ ∃ r, s.tasks t = TaskPhase.finishing r)
  others_done : ∀ t u, s.active = some t → u < s.taskCount → u ≠ t →
    ∃ r, s.tasks u = TaskPhase.done r
  none_done : s.active = none → ∀ u, u < s.taskCount → ∃ r, s.tasks u = TaskPhase.done r
  dl_cache : (s.downloads = 0 ∧ s.cache = false) ∨ (s.downloads = 1 ∧ s.cache = true)
  download_cache_false : ∀ t, s.tasks t = TaskPhase.download → s.cache = false
  result_url : ∀ t r, s.tasks t = TaskPhase.finishing r ∨ s.tasks t = TaskPhase.done r →
    r = some (audioUrl videoId)
  finishing_cache : ∀ t r, s.tasks t = TaskPhase.finishing r → s.cache = true
  waiting_lt : ∀ i t, s.callers i = CallerPhase.waiting t → t < s.taskCount
  finished_val : ∀ i r, s.callers i = CallerPhase.finished r →
    (isValidVideoId videoId = true → r = some (audioUrl videoId))
      ∧ (isValidVideoId videoId = false → r = none)
  active_waiter : ∀ t, s.active = some t → ∃ i, s.callers i = CallerPhase.waiting t
  task_progress : 1 ≤ s.taskCount → s.cache = true ∨
    ∃ t, s.active = some t ∧ (s.tasks t = TaskPhase.checkCache ∨ s.tasks t = TaskPhase.download)
  finished_task : isValidVideoId videoId = true →
    ∀ i r, s.callers i = CallerPhase.finished r → 1 ≤ s.taskCount
  invalid_clean : isValidVideoId videoId = false →
    s.taskCount = 0 ∧ s.downloads = 0 ∧ s.cache = false
      ∧ ∀ i, s.callers i = CallerPhase.start ∨ s.callers i = CallerPhase.finished none

lemma Inv_init (videoId : String) (N : Nat) : Inv videoId (initState N) := by
  refine
    { lock_free := rfl
      unborn_ge := fun t _ => rfl
      active_lt := fun t h => by simp [initState] at h
      active_alive := fun t h => by simp [initState] at h
      others_done := fun t u h => by simp [initState] at h
      none_done := fun _ u hu => by simp [initState] at hu
      dl_cache := Or.inl ⟨rfl, rfl⟩
      download_cache_false := fun t h => by simp [initState] at h
      result_url := fun t r h => by
        rcases h with h | h <;> simp [initState] at h
      finishing_cache := fun t r h => by simp [initState] at h
      waiting_lt := fun i t h => by simp [initState] at h
      finished_val := fun i r h => by simp [initState] at h
      active_waiter := fun t h => by simp [initState] at h
      task_progress := fun h => by simp [initState] at h
      finished_task := fun _ i r h => by simp [initState] at h
      invalid_clean := fun _ => ⟨rfl, rfl, rfl, fun i => Or.inl rfl⟩ }

/-- A task in a live phase is the one registered in `activeDownloads`. -/
lemma active_of_alive {videoId : String} {N : Nat} {s : SysState N}
    (inv : Inv videoId s) (t : Nat)
    (h : s.tasks t = TaskPhase.checkCache ∨ s.tasks t = TaskPhase.download
      ∨ ∃ r, s.tasks t = TaskPhase.finishing r) :
    s.active = some t := by
  have hne : s.tasks t ≠ TaskPhase.unborn := by
    rcases h with h | h | ⟨r, h⟩ <;> rw [h] <;> simp
  have ht_lt : t < s.taskCount := by
    by_contra hge
    exact hne (inv.unborn_ge t (Nat.le_of_not_lt hge))
  cases hact : s.active with
  | none =>
    obtain ⟨r, hr⟩ := inv.none_done hact t ht_lt
    rcases h with h | h | ⟨r', h⟩ <;> rw [hr] at h <;> simp at h
  | some t' =>
    by_cases he : t = t'
    · rw [he]
    · obtain ⟨r, hr⟩ := inv.others_done t' t hact ht_lt he
      rcases h with h | h | ⟨r', h⟩ <;> rw [hr] at h <;> simp at h

lemma Inv_callerStartInvalid {videoId : String} {N : Nat} {s : SysState N} (inv : Inv videoId s)
    (i : Fin N) (hc : s.callers i = CallerPhase.start) (hv : isValidVideoId videoId = false) :
    Inv videoId { s with callers := setCaller s.callers i (CallerPhase.finished none) } := by
  refine
    { lock_free := inv.lock_free
      unborn_ge := inv.unborn_ge
      active_lt := inv.active_lt
      active_alive := inv.active_alive
      others_done := inv.others_done
      none_done := inv.none_done
      dl_cache := inv.dl_cache
      download_cache_false := inv.download_cache_false
      result_url := inv.result_url
      finishing_cache := inv.finishing_cache
      waiting_lt := ?_
      finished_val := ?_
      active_waiter := ?_
      task_progress := inv.task_progress
      finished_task := ?_
      invalid_clean := ?_ }
  all_goals dsimp only
  · intro j t h
    by_cases hji : j = i
    · subst hji
      rw [setCaller_self] at h
      cases h
    · rw [setCaller_ne _ _ _ _ hji] at h
      exact inv.waiting_lt j t h
  · intro j r h
    by_cases hji : j = i
    · subst hji
      rw [setCaller_self] at h
      cases h
      refine ⟨fun hvt => ?_, fun _ => rfl⟩
      rw [hv] at hvt
      cases hvt
    · rw [setCaller_ne _ _ _ _ hji] at h
      exact inv.finished_val j r h
  · intro t h
    obtain ⟨j, hj⟩ := inv.active_waiter t h
    have hji : j ≠ i := by
      intro he
      rw [he, hc] at hj
      cases hj
    exact ⟨j, by rw [setCaller_ne _ _ _ _ hji]; exact hj⟩
  · intro hvt
    rw [hv] at hvt
    cases hvt
  · intro _
    obtain ⟨h1, h2, h3, h4⟩ := inv.invalid_clean hv
    refine ⟨h1, h2, h3, fun j => ?_⟩
    by_cases hji : j = i
    · subst hji
      rw [setCaller_self]
      exact Or.inr rfl
    · rw [setCaller_ne _ _ _ _ hji]
      exact h4 j

lemma Inv_callerStartJoin {videoId : String} {N : Nat} {s : SysState N} (inv : Inv videoId s)
    (i : Fin N) (t0 : Nat) (hc : s.callers i = CallerPhase.start)
    (hv : isValidVideoId videoId = true) (ha : s.active = some t0) :
    Inv videoId { s with callers := setCaller s.callers i (CallerPhase.waiting t0) } := by
  refine
    { lock_free := inv.lock_free
      unborn_ge := inv.unborn_ge
      active_lt := inv.active_lt
      active_alive := inv.active_alive
      others_done := inv.others_done
      none_done := inv.none_done
      dl_cache := inv.dl_cache
      download_cache_false := inv.download_cache_false
      result_url := inv.result_url
      finishing_cache := inv.finishing_cache
      waiting_lt := ?_
      finished_val := ?_
      active_waiter := ?_
      task_progress := inv.task_progress
      finished_task := ?_
      invalid_clean := ?_ }
  all_goals dsimp only
  · intro j t h
    by_cases hji : j = i
    · subst hji
      rw [setCaller_self] at h
      cases h
      exact inv.active_lt t0 ha
    · rw [setCaller_ne _ _ _ _ hji] at h
      exact inv.waiting_lt j t h
  · intro j r h
    by_cases hji : j = i
    · subst hji
      rw [setCaller_self] at h
      cases h
    · rw [setCaller_ne _ _ _ _ hji] at h
      exact inv.finished_val j r h
  · intro t h
    obtain ⟨j, hj⟩ := inv.active_waiter t h
    have hji : j ≠ i := by
      intro he
      rw [he, hc] at hj
      cases hj
    exact ⟨j, by rw [setCaller_ne _ _ _ _ hji]; exact hj⟩
  · intro _ j r h
    by_cases hji : j = i
    · subst hji
      rw [setCaller_self] at h
      cases h
    · rw [setCaller_ne _ _ _ _ hji] at h
      exact inv.finished_task hv j r h
  · intro hvf
    rw [hvf] at hv
    cases hv

lemma Inv_callerStartCreate {videoId : String} {N : Nat} {s : SysState N} (inv : Inv videoId s)
    (i : Fin N) (hc : s.callers i = CallerPhase.start)
    (hv : isValidVideoId videoId = true) (ha : s.active = none) :
    Inv videoId
      { s with active := some s.taskCount,
               taskCount := s.taskCount + 1,
               tasks := setTask s.tasks s.taskCount TaskPhase.checkCache,
               callers := setCaller s.callers i (CallerPhase.waiting s.taskCount) } := by
  refine
    { lock_free := inv.lock_free
      unborn_ge := ?_
      active_lt := ?_
      active_alive := ?_
      others_done := ?_
      none_done := ?_
      dl_cache := inv.dl_cache
      download_cache_false := ?_
      result_url := ?_
      finishing_cache := ?_
      waiting_lt := ?_
      finished_val := ?_
      active_waiter := ?_
      task_progress := ?_
      finished_task := ?_
      invalid_clean := ?_ }
  all_goals dsimp only
  · intro t ht
    have hne : t ≠ s.taskCount := by omega
    rw [setTask_ne _ _ _ _ hne]
    exact inv.unborn_ge t (by omega)
  · intro t ht
    cases ht
    omega
  · intro t ht
    cases ht
    rw [setTask_self]
    exact Or.inl rfl
  · intro t u ht hu hne
    cases ht
    have hu' : u < s.taskCount := by omega
    rw [setTask_ne _ _ _ _ hne]
    exact inv.none_done ha u hu'
  · intro h
    cases h
  · intro t ht
    by_cases hne : t = s.taskCount
    · subst hne
      rw [setTask_self] at ht
      cases ht
    · rw [setTask_ne _ _ _ _ hne] at ht
      exact inv.download_cache_false t ht
  · intro t r ht
    by_cases hne : t = s.taskCount
    · subst hne
      rw [setTask_self] at ht
      rcases ht with ht | ht <;> cases ht
    · rw [setTask_ne _ _ _ _ hne] at ht
      exact inv.result_url t r ht
  · intro t r ht
    by_cases hne : t = s.taskCount
    · subst hne
      rw [setTask_self] at ht
      cases ht
    · rw [setTask_ne _ _ _ _ hne] at ht
      exact inv.finishing_cache t r ht
  · intro j t h
    by_cases hji : j = i
    · subst hji
      rw [setCaller_self] at h
      cases h
      omega
    · rw [setCaller_ne _ _ _ _ hji] at h
      have := inv.waiting_lt j t h
      omega
  · intro j r h
    by_cases hji : j = i
    · subst hji
      rw [setCaller_self] at h
      cases h
    · rw [setCaller_ne _ _ _ _ hji] at h
      exact inv.finished_val j r h
  · intro t ht
    cases ht
    exact ⟨i, by rw [setCaller_self]⟩
  · intro _
    exact Or.inr ⟨s.taskCount, rfl, Or.inl (setTask_self _ _ _)⟩
  · intro _ j r h
    omega
  · intro hvf
    rw [hvf] at hv
    cases hv

lemma Inv_taskCheckHit {videoId : String} {N : Nat} {s : SysState N} (inv : Inv videoId s)
    (t : Nat) (hT : s.tasks t = TaskPhase.checkCache) (hcache : s.cache = true) :
    Inv videoId
      { s with tasks := setTask s.tasks t (TaskPhase.finishing (some (audioUrl videoId))) } := by
  have hact : s.active = some t := active_of_alive inv t (Or.inl hT)
  have htlt : t < s.taskCount := inv.active_lt t hact
  refine
    { lock_free := inv.lock_free
      unborn_ge := ?_
      active_lt := inv.active_lt
      active_alive := ?_
      others_done := ?_
      none_done := ?_
      dl_cache := inv.dl_cache
      download_cache_false := ?_
      result_url := ?_
      finishing_cache := fun _ _ _ => hcache
      waiting_lt := inv.waiting_lt
      finished_val := inv.finished_val
      active_waiter := inv.active_waiter
      task_progress := fun _ => Or.inl hcache
      finished_task := inv.finished_task
      invalid_clean := ?_ }
  all_goals dsimp only
  · intro u hu
    have hne : u ≠ t := by omega
    rw [setTask_ne _ _ _ _ hne]
    exact inv.unborn_ge u hu
  · intro t' ht'
    rw [hact] at ht'
    cases ht'
    rw [setTask_self]
    exact Or.inr (Or.inr ⟨_, rfl⟩)
  · intro t' u ht' hu hne
    rw [hact] at ht'
    cases ht'
    rw [setTask_ne _ _ _ _ hne]
    exact inv.others_done t u hact hu hne
  · intro h'
    rw [hact] at h'
    cases h'
  · intro u hu
    by_cases hne : u = t
    · subst hne
      rw [setTask_self] at hu
      cases hu
    · rw [setTask_ne _ _ _ _ hne] at hu
      exact inv.download_cache_false u hu
  · intro u r hu
    by_cases hne : u = t
    · subst hne
      rw [setTask_self] at hu
      rcases hu with hu | hu
      · cases hu
        rfl
      · cases hu
    · rw [setTask_ne _ _ _ _ hne] at hu
      exact inv.result_url u r hu
  · intro hvf
    obtain ⟨h0, _⟩ := inv.invalid_clean hvf
    omega

lemma Inv_taskCheckMiss {videoId : String} {N : Nat} {s : SysState N} (inv : Inv videoId s)
    (t : Nat) (hT : s.tasks t = TaskPhase.checkCache) (hcache : s.cache = false) :
    Inv videoId { s with tasks := setTask s.tasks t TaskPhase.download } := by
  have hact : s.active = some t := active_of_alive inv t (Or.inl hT)
  have htlt : t < s.taskCount := inv.active_lt t hact
  refine
    { lock_free := inv.lock_free
      unborn_ge := ?_
      active_lt := inv.active_lt
      active_alive := ?_
      others_done := ?_
      none_done := ?_
      dl_cache := inv.dl_cache
      download_cache_false := fun _ _ => hcache
      result_url := ?_
      finishing_cache := ?_
      waiting_lt := inv.waiting_lt
      finished_val := inv.finished_val
      active_waiter := inv.active_waiter
      task_progress := ?_
      finished_task := inv.finished_task
      invalid_clean := ?_ }
  all_goals dsimp only
  · intro u hu
    have hne : u ≠ t := by omega
    rw [setTask_ne _ _ _ _ hne]
    exact inv.unborn_ge u hu
  · intro t' ht'
    rw [hact] at ht'
    cases ht'
    rw [setTask_self]
    exact Or.inr (Or.inl rfl)
  · intro t' u ht' hu hne
    rw [hact] at ht'
    cases ht'
    rw [setTask_ne _ _ _ _ hne]
    exact inv.others_done t u hact hu hne
  · intro h'
    rw [hact] at h'
    cases h'
  · intro u r hu
    by_cases hne : u = t
    · subst hne
      rw [setTask_self] at hu
      rcases hu with hu | hu <;> cases hu
    · rw [setTask_ne _ _ _ _ hne] at hu
      exact inv.result_url u r hu
  · intro u r hu
    by_cases hne : u = t
    · subst hne
      rw [setTask_self] at hu
      cases hu
    · rw [setTask_ne _ _ _ _ hne] at hu
      exact inv.finishing_cache u r hu
  · intro _
    exact Or.inr ⟨t, hact, Or.inr (setTask_self _ _ _)⟩
  · intro hvf
    obtain ⟨h0, _⟩ := inv.invalid_clean hvf
    omega

lemma Inv_taskDownload {videoId : String} {N : Nat} {s : SysState N} (inv : Inv videoId s)
    (t : Nat) (hT : s.tasks t = TaskPhase.download) :
    Inv videoId
      { s with downloads := s.downloads + 1, cache := true,
               tasks := setTask s.tasks t (TaskPhase.finishing (some (audioUrl videoId))) } := by
  have hact : s.active = some t := active_of_alive inv t (Or.inr (Or.inl hT))
  have htlt : t < s.taskCount := inv.active_lt t hact
  have hcf : s.cache = false := inv.download_cache_false t hT
  have hdl0 : s.downloads = 0 := by
    rcases inv.dl_cache with ⟨h1, _⟩ | ⟨_, h2⟩
    · exact h1
    · rw [h2] at hcf
      cases hcf
  refine
    { lock_free := inv.lock_free
      unborn_ge := ?_
      active_lt := inv.active_lt
      active_alive := ?_
      others_done := ?_
      none_done := ?_
      dl_cache := ?_
      download_cache_false := ?_
      result_url := ?_
      finishing_cache := fun _ _ _ => rfl
      waiting_lt := inv.waiting_lt
      finished_val := inv.finished_val
      active_waiter := inv.active_waiter
      task_progress := fun _ => Or.inl rfl
      finished_task := inv.finished_task
      invalid_clean := ?_ }
  all_goals dsimp only
  · intro u hu
    have hne : u ≠ t := by omega
    rw [setTask_ne _ _ _ _ hne]
    exact inv.unborn_ge u hu
  · intro t' ht'
    rw [hact] at ht'
    cases ht'
    rw [setTask_self]
    exact Or.inr (Or.inr ⟨_, rfl⟩)
  · intro t' u ht' hu hne
    rw [hact] at ht'
    cases ht'
    rw [setTask_ne _ _ _ _ hne]
    exact inv.others_done t u hact hu hne
  · intro h'
    rw [hact] at h'
    cases h'
  · rw [hdl0]
    exact Or.inr ⟨rfl, rfl⟩
  · intro u hu
    by_cases hne : u = t
    · subst hne
      rw [setTask_self] at hu
      cases hu
    · rw [setTask_ne _ _ _ _ hne] at hu
      have := active_of_alive inv u (Or.inr (Or.inl hu))
      rw [hact] at this
      cases this
      exact absurd rfl hne
  · intro u r hu
    by_cases hne : u = t
    · subst hne
      rw [setTask_self] at hu
      rcases hu with hu | hu
      · cases hu
        rfl
      · cases hu
    · rw [setTask_ne _ _ _ _ hne] at hu
      exact inv.result_url u r hu
  · intro hvf
    obtain ⟨h0, _⟩ := inv.invalid_clean hvf
    omega

lemma Inv_taskFinish {videoId : String} {N : Nat} {s : SysState N} (inv : Inv videoId s)
    (t : Nat) (r : Option String) (hT : s.tasks t = TaskPhase.finishing r) :
    Inv videoId { s with active := none, tasks := setTask s.tasks t (TaskPhase.done r) } := by
  have hact : s.active = some t := active_of_alive inv t (Or.inr (Or.inr ⟨r, hT⟩))
  have htlt : t < s.taskCount := inv.active_lt t hact
  have hcache : s.cache = true := inv.finishing_cache t r hT
  refine
    { lock_free := inv.lock_free
      unborn_ge := ?_
      active_lt := ?_
      active_alive := ?_
      others_done := ?_
      none_done := ?_
      dl_cache := inv.dl_cache
      download_cache_false := ?_
      result_url := ?_
      finishing_cache := fun _ _ _ => hcache
      waiting_lt := inv.waiting_lt
      finished_val := inv.finished_val
      active_waiter := ?_
      task_progress := fun _ => Or.inl hcache
      finished_task := inv.finished_task
      invalid_clean := ?_ }
  all_goals dsimp only
  · intro u hu
    have hne : u ≠ t := by omega
    rw [setTask_ne _ _ _ _ hne]
    exact inv.unborn_ge u hu
  · intro t' ht'
    cases ht'
  · intro t' ht'
    cases ht'
  · intro t' u ht'
    cases ht'
  · intro _ u hu
    by_cases hne : u = t
    · subst hne
      rw [setTask_self]
      exact ⟨r, rfl⟩
    · rw [setTask_ne _ _ _ _ hne]
      exact inv.others_done t u hact hu hne
  · intro u hu
    by_cases hne : u = t
    · subst hne
      rw [setTask_self] at hu
      cases hu
    · rw [setTask_ne _ _ _ _ hne] at hu
      have := inv.download_cache_false u hu
      rw [hcache] at this
      cases this
  · intro u r' hu
    by_cases hne : u = t
    · subst hne
      rw [setTask_self] at hu
      rcases hu with hu | hu
      · cases hu
      · cases hu
        exact inv.result_url _ r (Or.inl hT)
    · rw [setTask_ne _ _ _ _ hne] at hu
      exact inv.result_url u r' hu
  · intro t' ht'
    cases ht'
  · intro hvf
    obtain ⟨h0, _⟩ := inv.invalid_clean hvf
    omega

lemma Inv_callerObserve {videoId : String} {N : Nat} {s : SysState N} (inv : Inv videoId s)
    (i : Fin N) (t : Nat) (r : Option String)
    (hw : s.callers i = CallerPhase.waiting t) (hd : s.tasks t = TaskPhase.done r) :
    Inv videoId { s with callers := setCaller s.callers i (CallerPhase.finished r) } := by
  have htlt : t < s.taskCount := inv.waiting_lt i t hw
  refine
    { lock_free := inv.lock_free
      unborn_ge := inv.unborn_ge
      active_lt := inv.active_lt
      active_alive := inv.active_alive
      others_done := inv.others_done
      none_done := inv.none_done
      dl_cache := inv.dl_cache
      download_cache_false := inv.download_cache_false
      result_url := inv.result_url
      finishing_cache := inv.finishing_cache
      waiting_lt := ?_
      finished_val := ?_
      active_waiter := ?_
      task_progress := inv.task_progress
      finished_task := ?_
      invalid_clean := ?_ }
  all_goals dsimp only
  · intro j t' h
    by_cases hji : j = i
    · subst hji
      rw [setCaller_self] at h
      cases h
    · rw [setCaller_ne _ _ _ _ hji] at h
      exact inv.waiting_lt j t' h
  · intro j r' h
    by_cases hji : j = i
    · subst hji
      rw [setCaller_self] at h
      cases h
      refine ⟨fun _ => inv.result_url t r (Or.inr hd), fun hvf => ?_⟩
      obtain ⟨h0, _⟩ := inv.invalid_clean hvf
      omega
    · rw [setCaller_ne _ _ _ _ hji] at h
      exact inv.finished_val j r' h
  · intro t' ht'
    obtain ⟨j, hj⟩ := inv.active_waiter t' ht'
    have hji : j ≠ i := by
      intro he
      rw [he, hw] at hj
      injection hj with hj2
      subst hj2
      rcases inv.active_alive t ht' with h' | h' | ⟨r', h'⟩ <;> rw [hd] at h' <;> cases h'
    exact ⟨j, by rw [setCaller_ne _ _ _ _ hji]; exact hj⟩
  · intro hvt j r' h
    by_cases hji : j = i
    · omega
    · rw [setCaller_ne _ _ _ _ hji] at h
      exact inv.finished_task hvt j r' h
  · intro hvf
    obtain ⟨h0, _⟩ := inv.invalid_clean hvf
    omega

/-- The invariant is preserved by every step. -/
lemma Inv_step {videoId : String} {N : Nat} {s s' : SysState N}
    (inv : Inv videoId s) (hstep : Step videoId s s') : Inv videoId s' := by
  cases hstep with
  | callerStartInvalid i hc hv => exact Inv_callerStartInvalid inv i hc hv
  | callerStartJoin i t0 hc hv hl ha => exact Inv_callerStartJoin inv i t0 hc hv ha
  | callerStartCreate i hc hv hl ha => exact Inv_callerStartCreate inv i hc hv ha
  | taskCheckHit t hT hcache => exact Inv_taskCheckHit inv t hT hcache
  | taskCheckMiss t hT hcache => exact Inv_taskCheckMiss inv t hT hcache
  | taskDownload t hT => exact Inv_taskDownload inv t hT
  | taskFinish t r hT => exact Inv_taskFinish inv t r hT
  | callerObserve i t r hw hd => exact Inv_callerObserve inv i t r hw hd

/-- The invariant holds in every reachable state. -/
lemma Inv_reachable {videoId : String} {N : Nat} {s : SysState N}
    (h : Reachable videoId N s) : Inv videoId s := by
  unfold Reachable at h
  induction h with
  | refl => exact Inv_init videoId N
  | tail _ hstep ih => exact Inv_step ih hstep

/-- C1: for a valid video id with no cache entry, any interleaving of
`N ≥ 2` concurrent acquire calls in which every caller finishes performs
exactly one external downloader invocation, and every caller receives the
same protocol URL of the `.m4a` cache file. -/
theorem C1_concurrent_acquire (videoId : String) (N : Nat) (s : SysState N)
    (hv : isValidVideoId videoId = true) (hN : 2 ≤ N)
    (hreach : Reachable videoId N s)
    (hdone : ∀ i, ∃ r, s.callers i = CallerPhase.finished r) :
    s.downloads = 1
    ∧ ∀ i, s.callers i = CallerPhase.finished (some (audioUrl videoId)) := by
  have inv := Inv_reachable hreach
  have hact : s.active = none := by
    cases hA : s.active with
    | none => rfl
    | some t =>
      obtain ⟨j, hj⟩ := inv.active_waiter t hA
      obtain ⟨r, hr⟩ := hdone j
      rw [hj] at hr
      cases hr
  have hN1 : 0 < N := by omega
  obtain ⟨r0, hr0⟩ := hdone ⟨0, hN1⟩
  have htc : 1 ≤ s.taskCount := inv.finished_task hv ⟨0, hN1⟩ r0 hr0
  have hcache : s.cache = true := by
    rcases inv.task_progress htc with h | ⟨t, hat, _⟩
    · exact h
    · rw [hact] at hat
      cases hat
  have hdl : s.downloads = 1 := by
    rcases inv.dl_cache with ⟨_, h2⟩ | ⟨h1, _⟩
    · rw [h2] at hcache
      cases hcache
    · exact h1
  refine ⟨hdl, fun i => ?_⟩
  obtain ⟨r, hr⟩ := hdone i
  rw [hr, (inv.finished_val i r hr).1 hv]

/-- C5: the id validator accepts exactly the 11-character strings over
`[a-zA-Z0-9_-]`, and an acquire request with an invalid id is rejected
with a `null` result before any lock, cache, filesystem or downloader
step: in every reachable state of the system no task was created, the
downloader never ran, no cache file appeared, and every finished caller
got `null`. -/
theorem C5_invalid_id_rejected :
    (∀ s : String, isValidVideoId s = true ↔
      (s.data.length = 11 ∧ ∀ c ∈ s.data, isVideoIdChar c = true))
    ∧ (∀ (videoId : String) (N : Nat) (s : SysState N),
        isValidVideoId videoId = false → Reachable videoId N s →
        s.downloads = 0 ∧ s.taskCount = 0 ∧ s.cache = false
          ∧ ∀ i r, s.callers i = CallerPhase.finished r → r = none) := by
  constructor
  · intro s
    unfold isValidVideoId
    by_cases h : s = ""
    · subst h
      simp
    · rw [if_neg h]
      simp [List.all_eq_true]
  · intro videoId N s hv hreach
    have inv := Inv_reachable hreach
    obtain ⟨h1, h2, h3, _⟩ := inv.invalid_clean hv
    exact ⟨h2, h1, h3, fun i r hr => (inv.finished_val i r hr).2 hv⟩

/-! A concrete nine-step interleaving for the C1 witness: caller 0
creates the download task, which misses the cache, downloads and
finishes; caller 0 observes the result; caller 1 then acquires, its task
hits the cache and finishes without downloading. -/

def acquireDemo0 : SysState 2 := initState 2

def acquireDemo1 : SysState 2 :=
  { acquireDemo0 with active := some acquireDemo0.taskCount,
                      taskCount := acquireDemo0.taskCount + 1,
                      tasks := setTask acquireDemo0.tasks acquireDemo0.taskCount TaskPhase.checkCache,
                      callers := setCaller acquireDemo0.callers 0
                        (CallerPhase.waiting acquireDemo0.taskCount) }

def acquireDemo2 : SysState 2 :=
  { acquireDemo1 with tasks := setTask acquireDemo1.tasks 0 TaskPhase.download }

def acquireDemo3 : SysState 2 :=
  { acquireDemo2 with downloads := acquireDemo2.downloads + 1, cache := true,
                      tasks := setTask acquireDemo2.tasks 0
                        (TaskPhase.finishing (some (audioUrl "dQw4w9WgXcQ"))) }

def acquireDemo4 : SysState 2 :=
  { acquireDemo3 with active := none,
                      tasks := setTask acquireDemo3.tasks 0
                        (TaskPhase.done (some (audioUrl "dQw4w9WgXcQ"))) }

def acquireDemo5 : SysState 2 :=
  { acquireDemo4 with callers := setCaller acquireDemo4.callers 0
                        (CallerPhase.finished (some (audioUrl "dQw4w9WgXcQ"))) }

def acquireDemo6 : SysState 2 :=
  { acquireDemo5 with active := some acquireDemo5.taskCount,
                      taskCount := acquireDemo5.taskCount + 1,
                      tasks := setTask acquireDemo5.tasks acquireDemo5.taskCount TaskPhase.checkCache,
                      callers := setCaller acquireDemo5.callers 1
                        (CallerPhase.waiting acquireDemo5.taskCount) }

def acquireDemo7 : SysState 2 :=
  { acquireDemo6 with tasks := setTask acquireDemo6.tasks 1
                        (TaskPhase.finishing (some (audioUrl "dQw4w9WgXcQ"))) }

def acquireDemo8 : SysState 2 :=
  { acquireDemo7 with active := none,
                      tasks := setTask acquireDemo7.tasks 1
                        (TaskPhase.done (some (audioUrl "dQw4w9WgXcQ"))) }

def acquireDemo9 : SysState 2 :=
  { acquireDemo8 with callers := setCaller acquireDemo8.callers 1
                        (CallerPhase.finished (some (audioUrl "dQw4w9WgXcQ"))) }

lemma acquireDemo_reachable : Reachable "dQw4w9WgXcQ" 2 acquireDemo9 := by
  have r0 : Reachable "dQw4w9WgXcQ" 2 acquireDemo0 := Relation.ReflTransGen.refl
  have r1 : Reachable "dQw4w9WgXcQ" 2 acquireDemo1 :=
    Relation.ReflTransGen.tail r0
      (Step.callerStartCreate acquireDemo0 0 rfl (by decide) rfl rfl)
  have r2 : Reachable "dQw4w9WgXcQ" 2 acquireDemo2 :=
    Relation.ReflTransGen.tail r1 (Step.taskCheckMiss acquireDemo1 0 rfl rfl)
  have r3 : Reachable "dQw4w9WgXcQ" 2 acquireDemo3 :=
    Relation.ReflTransGen.tail r2 (Step.taskDownload acquireDemo2 0 rfl)
  have r4 : Reachable "dQw4w9WgXcQ" 2 acquireDemo4 :=
    Relation.ReflTransGen.tail r3
      (Step.taskFinish acquireDemo3 0 (some (audioUrl "dQw4w9WgXcQ")) rfl)
  have r5 : Reachable "dQw4w9WgXcQ" 2 acquireDemo5 :=
    Relation.ReflTransGen.tail r4
      (Step.callerObserve acquireDemo4 0 0 (some (audioUrl "dQw4w9WgXcQ")) rfl rfl)
  have r6 : Reachable "dQw4w9WgXcQ" 2 acquireDemo6 :=
    Relation.ReflTransGen.tail r5
      (Step.callerStartCreate acquireDemo5 1 rfl (by decide) rfl rfl)
  have r7 : Reachable "dQw4w9WgXcQ" 2 acquireDemo7 :=
    Relation.ReflTransGen.tail r6 (Step.taskCheckHit acquireDemo6 1 rfl rfl)
  have r8 : Reachable "dQw4w9WgXcQ" 2 acquireDemo8 :=
    Relation.ReflTransGen.tail r7
      (Step.taskFinish acquireDemo7 1 (some (audioUrl "dQw4w9WgXcQ")) rfl)
  exact Relation.ReflTransGen.tail r8
    (Step.callerObserve acquireDemo8 1 1 (some (audioUrl "dQw4w9WgXcQ")) rfl rfl)

/-- Witness for C1 on the concrete nine-step interleaving. -/
theorem C1_concurrent_acquire_witness :
    isValidVideoId "dQw4w9WgXcQ" = true
    ∧ 2 ≤ 2
    ∧ acquireDemo9.downloads = 1
    ∧ acquireDemo9.callers 0 = CallerPhase.finished (some (audioUrl "dQw4w9WgXcQ"))
    ∧ acquireDemo9.callers 1 = CallerPhase.finished (some (audioUrl "dQw4w9WgXcQ")) := by
  have h := C1_concurrent_acquire "dQw4w9WgXcQ" 2 acquireDemo9 (by decide) (by decide)
    acquireDemo_reachable
    (by
      intro i
      fin_cases i
      · exact ⟨some (audioUrl "dQw4w9WgXcQ"), rfl⟩
      · exact ⟨some (audioUrl "dQw4w9WgXcQ"), rfl⟩)
  exact ⟨by decide, by decide, h.1, h.2 0, h.2 1⟩

/-- Witness for C5: the invalid id `"bad id!"` and the empty trace. -/
theorem C5_invalid_id_rejected_witness :
    isValidVideoId "bad id!" = false
    ∧ ((initState 2).downloads = 0 ∧ (initState 2).taskCount = 0
        ∧ (initState 2).cache = false
        ∧ ∀ i r, (initState 2).callers i = CallerPhase.finished r → r = none)
    ∧ (isValidVideoId "dQw4w9WgXcQ" = true ↔
        (("dQw4w9WgXcQ" : String).data.length = 11
          ∧ ∀ c ∈ ("dQw4w9WgXcQ" : String).data, isVideoIdChar c = true)) :=
  ⟨by decide,
    C5_invalid_id_rejected.2 "bad id!" 2 (initState 2) (by decide) Relation.ReflTransGen.refl,
    C5_invalid_id_rejected.1 "dQw4w9WgXcQ"⟩

end MusicPlayer
